import Mathlib

/-
Verification of the Puzzle-Solver repository.

The repository contains three Python classes, each one snapshot of a puzzle:
  * GridPegSolitairePuzzle (grid_peg_solitaire_puzzle.py): a rectangular grid
    of markers "*" (peg), "." (empty), "#" (unused) plus a declared marker set.
  * MNPuzzle (mn_puzzle.py): a pair of grids of string symbols with blank "*".
  * WordLadderPuzzle (word_ladder_puzzle.py): a word pair plus a dictionary.
Each class offers extensions() (one-move successors) and is_solved().

This file shallowly embeds those classes and settles the specification claims
about them.  Python lists of lists become List (List _); the three grid
markers become an inductive type; Python's `marker[i][j]` reads become getD
with a default that is never reached in bounds; writes become List.set.
-/

/-- The three legal peg-solitaire markers: "*" is peg, "." is empty,
"#" is unused. -/
inductive Marker where
  | peg : Marker
  | empty : Marker
  | unused : Marker
deriving DecidableEq

/-- A peg-solitaire grid: list of rows of markers. -/
abbrev Grid := List (List Marker)

/-- Read cell (i, j); the default (out of bounds) is never hit on valid use. -/
def cellAt (g : Grid) (i j : Nat) : Marker :=
  (g.getD i []).getD j Marker.unused

/-- Write cell (i, j), Python's `g[i][j] = v` on a list of lists. -/
def setCell (g : Grid) (i j : Nat) (v : Marker) : Grid :=
  g.set i ((g.getD i []).set j v)

/-- `GridPegSolitairePuzzle` from grid_peg_solitaire_puzzle.py: the grid
`_marker` plus the declared `_marker_set`. -/
structure GridPegSolitairePuzzle where
  marker : Grid
  marker_set : Finset Marker
deriving DecidableEq

/-- The constructor assertions of GridPegSolitairePuzzle.__init__ (lines
21-25): nonempty grid, rectangular rows, every cell in the declared marker
set.  (The remaining assertion, that the declared set only holds "*", ".",
"#", is automatic here because `Marker` has exactly those three values.) -/
def ValidGPS (p : GridPegSolitairePuzzle) : Prop :=
  p.marker ≠ [] ∧
  (∀ r ∈ p.marker, r.length = (p.marker.headD []).length) ∧
  (∀ r ∈ p.marker, ∀ c ∈ r, c ∈ p.marker_set)

instance (p : GridPegSolitairePuzzle) : Decidable (ValidGPS p) := by
  unfold ValidGPS; exact inferInstance

/-- `row_configs` of grid_peg_solitaire_puzzle.py lines 90-133: for every
cell (i, j) of the grid holding ".", a jump landing there from the west
(peg at (i, j-2), peg at (i, j-1)) and a jump from the east (peg at
(i, j+2), peg at (i, j+1)), each guarded exactly as in the source. -/
def GridPegSolitairePuzzle.row_configs (p : GridPegSolitairePuzzle)
    (cols rows : Nat) : List GridPegSolitairePuzzle :=
  (List.range cols).flatMap (fun i =>
    (List.range rows).flatMap (fun j =>
      if cellAt p.marker i j = Marker.empty then
        (if 2 ≤ j ∧ cellAt p.marker i (j - 2) = Marker.peg ∧
            cellAt p.marker i (j - 1) = Marker.peg then
          [⟨setCell (setCell (setCell p.marker i j Marker.peg)
              i (j - 2) Marker.empty) i (j - 1) Marker.empty, p.marker_set⟩]
        else []) ++
        (if j + 2 < rows ∧ cellAt p.marker i (j + 2) = Marker.peg ∧
            cellAt p.marker i (j + 1) = Marker.peg then
          [⟨setCell (setCell (setCell p.marker i j Marker.peg)
              i (j + 2) Marker.empty) i (j + 1) Marker.empty, p.marker_set⟩]
        else [])
      else []))

/-- `col_configs` of grid_peg_solitaire_puzzle.py lines 135-178: vertical
jumps, guarded exactly as in the source (note the south case writes
(i, j), (i+1, j), (i+2, j) in that order, mirrored here). -/
def GridPegSolitairePuzzle.col_configs (p : GridPegSolitairePuzzle)
    (cols rows : Nat) : List GridPegSolitairePuzzle :=
  (List.range cols).flatMap (fun i =>
    (List.range rows).flatMap (fun j =>
      if cellAt p.marker i j = Marker.empty then
        (if 2 ≤ i ∧ cellAt p.marker (i - 2) j = Marker.peg ∧
            cellAt p.marker (i - 1) j = Marker.peg then
          [⟨setCell (setCell (setCell p.marker i j Marker.peg)
              (i - 2) j Marker.empty) (i - 1) j Marker.empty, p.marker_set⟩]
        else []) ++
        (if i + 2 < cols ∧ cellAt p.marker (i + 2) j = Marker.peg ∧
            cellAt p.marker (i + 1) j = Marker.peg then
          [⟨setCell (setCell (setCell p.marker i j Marker.peg)
              (i + 1) j Marker.empty) (i + 2) j Marker.empty, p.marker_set⟩]
        else [])
      else []))

/-- `extensions` of grid_peg_solitaire_puzzle.py lines 180-198:
`m = len(marker)`, `n = len(marker[0])`, then row moves followed by
column moves. -/
def GridPegSolitairePuzzle.extensions (p : GridPegSolitairePuzzle) :
    List GridPegSolitairePuzzle :=
  p.row_configs p.marker.length (p.marker.headD []).length ++
    p.col_configs p.marker.length (p.marker.headD []).length

/-- `is_solved` of grid_peg_solitaire_puzzle.py lines 200-231: count the
"*" cells with two nested loops over range(m) x range(n) and compare
with 1. -/
def GridPegSolitairePuzzle.is_solved (p : GridPegSolitairePuzzle) : Bool :=
  let m := p.marker.length
  let n := (p.marker.headD []).length
  let count := (List.range m).foldl (fun acc i =>
    (List.range n).foldl (fun acc2 j =>
      if cellAt p.marker i j = Marker.peg then acc2 + 1 else acc2) acc) 0
  count == 1

/-- Number of peg cells of a grid, counted over all cells of all rows. -/
def pegTotal (g : Grid) : Nat :=
  (g.flatten.filter (fun c => c = Marker.peg)).length

/- ------------------------------------------------------------------ -/
/- Generic list helpers used to relate the source's loops to counts.  -/
/- ------------------------------------------------------------------ -/

theorem foldl_if_count {α : Type} (q : α → Prop) [DecidablePred q]
    (L : List α) :
    ∀ acc : Nat, L.foldl (fun a x => if q x then a + 1 else a) acc
      = acc + (L.filter (fun x => decide (q x))).length := by
  induction L with
  | nil => intro acc; simp
  | cons x t ih =>
    intro acc
    by_cases hx : q x
    · simp [List.foldl_cons, hx, ih, Nat.add_assoc, Nat.add_comm 1]
    · simp [List.foldl_cons, hx, ih]

theorem foldl_add_map {α : Type} (w : α → Nat) (L : List α) :
    ∀ acc : Nat, L.foldl (fun a x => a + w x) acc = acc + (L.map w).sum := by
  induction L with
  | nil => intro acc; simp
  | cons x t ih => intro acc; simp [List.foldl_cons, ih, Nat.add_assoc]

theorem foldl_ext_mem {α β : Type} (f g : β → α → β) (L : List α)
    (h : ∀ x ∈ L, ∀ acc, f acc x = g acc x) :
    ∀ b, L.foldl f b = L.foldl g b := by
  induction L with
  | nil => intro b; rfl
  | cons x t ih =>
    intro b
    rw [List.foldl_cons, List.foldl_cons, h x (by simp)]
    exact ih (fun y hy acc => h y (by simp [hy]) acc) _

theorem filter_range_getD {α : Type} (q : α → Bool) (d : α) (r : List α) :
    ((List.range r.length).filter (fun j => q (r.getD j d))).length
      = (r.filter q).length := by
  induction r with
  | nil => simp
  | cons a t ih =>
    rw [List.length_cons, List.range_succ_eq_map, List.filter_cons,
      List.getD_cons_zero, List.filter_map]
    have hpred : ((fun j => q ((a :: t).getD j d)) ∘ Nat.succ)
        = (fun j => q (t.getD j d)) := rfl
    rw [hpred]
    by_cases ha : q a
    · simp only [ha, ite_true, List.length_cons, List.filter_cons,
        List.length_map]
      exact congrArg (· + 1) ih
    · simp only [ha, Bool.false_eq_true, ite_false, List.filter_cons,
        List.length_map]
      exact ih

theorem map_range_getD {α β : Type} (f : α → β) (d : α) (g : List α) :
    (List.range g.length).map (fun i => f (g.getD i d)) = g.map f := by
  induction g with
  | nil => simp
  | cons a t ih =>
    have hrange : List.range (t.length + 1)
        = 0 :: (List.range t.length).map Nat.succ := List.range_succ_eq_map _
    simp only [List.length_cons, hrange, List.map_cons, List.getD_cons_zero,
      List.map_map]
    rw [← ih]
    rfl

theorem length_filter_flatten {α : Type} (q : α → Bool) (g : List (List α)) :
    (g.flatten.filter q).length = (g.map (fun r => (r.filter q).length)).sum := by
  induction g with
  | nil => simp
  | cons r t ih =>
    simp only [List.flatten_cons, List.filter_append, List.length_append,
      List.map_cons, List.sum_cons, ih]

/-- Claim C4: for every valid peg-solitaire configuration, is_solved()
returns true if and only if exactly one cell of the whole grid holds "peg",
regardless of how many cells hold "empty" or "unused". -/
theorem gps_is_solved_iff_one_peg (p : GridPegSolitairePuzzle)
    (hv : ValidGPS p) :
    p.is_solved = true ↔ pegTotal p.marker = 1 := by
  obtain ⟨-, hrect, -⟩ := hv
  have hcount : (List.range p.marker.length).foldl (fun acc i =>
      (List.range (p.marker.headD []).length).foldl (fun acc2 j =>
        if cellAt p.marker i j = Marker.peg then acc2 + 1 else acc2) acc) 0
      = pegTotal p.marker := by
    have h1 : ∀ i ∈ List.range p.marker.length, ∀ acc : Nat,
        (List.range (p.marker.headD []).length).foldl (fun acc2 j =>
          if cellAt p.marker i j = Marker.peg then acc2 + 1 else acc2) acc
        = acc + ((p.marker.getD i []).filter
            (fun c => decide (c = Marker.peg))).length := by
      intro i hi acc
      have hlen : (p.marker.getD i []).length = (p.marker.headD []).length := by
        apply hrect
        have hi' : i < p.marker.length := List.mem_range.mp hi
        rw [List.getD_eq_getElem _ _ hi']
        exact List.getElem_mem hi'
      rw [show (List.range (p.marker.headD []).length)
          = (List.range (p.marker.getD i []).length) by rw [hlen]]
      rw [foldl_if_count (fun j => cellAt p.marker i j = Marker.peg) _ acc]
      congr 1
      have := filter_range_getD (fun c => decide (c = Marker.peg))
        Marker.unused (p.marker.getD i [])
      rw [← this]
      rfl
    rw [foldl_ext_mem _ (fun acc i => acc + ((p.marker.getD i []).filter
        (fun c => decide (c = Marker.peg))).length) _
        (fun i hi acc => h1 i hi acc)]
    rw [foldl_add_map]
    rw [map_range_getD (fun r => (r.filter (fun c =>
      decide (c = Marker.peg))).length) ([] : List Marker) p.marker]
    rw [Nat.zero_add]
    rw [pegTotal, length_filter_flatten]
  unfold GridPegSolitairePuzzle.is_solved
  simp only [hcount, beq_iff_eq]

/-- Witness for gps_is_solved_iff_one_peg at a concrete solved 2x2 grid. -/
theorem gps_is_solved_iff_one_peg_witness :
    (GridPegSolitairePuzzle.mk
      [[Marker.peg, Marker.empty], [Marker.unused, Marker.empty]]
      {Marker.peg, Marker.empty, Marker.unused}).is_solved = true := by
  have h := gps_is_solved_iff_one_peg
    (GridPegSolitairePuzzle.mk
      [[Marker.peg, Marker.empty], [Marker.unused, Marker.empty]]
      {Marker.peg, Marker.empty, Marker.unused}) (by decide)
  exact h.mpr (by decide)

/- ------------------------------------------------------------------ -/
/- Peg-solitaire jumps: the (empty cell, direction) pairs of claim C1. -/
/- ------------------------------------------------------------------ -/

/-- The four jump directions, named after where the jumping peg comes from:
`fromWest` is the jump with origin (i, j-2), `fromEast` origin (i, j+2),
`fromNorth` origin (i-2, j), `fromSouth` origin (i+2, j); the landing cell
is always (i, j). -/
inductive JumpDir where
  | fromWest : JumpDir
  | fromEast : JumpDir
  | fromNorth : JumpDir
  | fromSouth : JumpDir
deriving DecidableEq

/-- The origin cell of a jump: offset 2 from the landing cell. -/
def originOf (t : Nat × Nat × JumpDir) : Nat × Nat :=
  match t with
  | (i, j, JumpDir.fromWest) => (i, j - 2)
  | (i, j, JumpDir.fromEast) => (i, j + 2)
  | (i, j, JumpDir.fromNorth) => (i - 2, j)
  | (i, j, JumpDir.fromSouth) => (i + 2, j)

/-- The jumped-over cell of a jump: offset 1 from the landing cell. -/
def overOf (t : Nat × Nat × JumpDir) : Nat × Nat :=
  match t with
  | (i, j, JumpDir.fromWest) => (i, j - 1)
  | (i, j, JumpDir.fromEast) => (i, j + 1)
  | (i, j, JumpDir.fromNorth) => (i - 1, j)
  | (i, j, JumpDir.fromSouth) => (i + 1, j)

/-- Claim C1's qualifying pairs: the landing cell (i, j) is an in-grid
cell holding "empty", the cell at offset 2 in the direction is in bounds
and holds "peg", and the intervening cell at offset 1 holds "peg". -/
def Qualifies (g : Grid) (t : Nat × Nat × JumpDir) : Prop :=
  match t with
  | (i, j, JumpDir.fromWest) =>
      i < g.length ∧ j < (g.headD []).length ∧
      cellAt g i j = Marker.empty ∧ 2 ≤ j ∧
      cellAt g i (j - 2) = Marker.peg ∧ cellAt g i (j - 1) = Marker.peg
  | (i, j, JumpDir.fromEast) =>
      i < g.length ∧ j < (g.headD []).length ∧
      cellAt g i j = Marker.empty ∧ j + 2 < (g.headD []).length ∧
      cellAt g i (j + 2) = Marker.peg ∧ cellAt g i (j + 1) = Marker.peg
  | (i, j, JumpDir.fromNorth) =>
      i < g.length ∧ j < (g.headD []).length ∧
      cellAt g i j = Marker.empty ∧ 2 ≤ i ∧
      cellAt g (i - 2) j = Marker.peg ∧ cellAt g (i - 1) j = Marker.peg
  | (i, j, JumpDir.fromSouth) =>
      i < g.length ∧ j < (g.headD []).length ∧
      cellAt g i j = Marker.empty ∧ i + 2 < g.length ∧
      cellAt g (i + 2) j = Marker.peg ∧ cellAt g (i + 1) j = Marker.peg

instance (g : Grid) (t : Nat × Nat × JumpDir) : Decidable (Qualifies g t) :=
  match t with
  | (_, _, JumpDir.fromWest) => inferInstanceAs (Decidable (_ ∧ _))
  | (_, _, JumpDir.fromEast) => inferInstanceAs (Decidable (_ ∧ _))
  | (_, _, JumpDir.fromNorth) => inferInstanceAs (Decidable (_ ∧ _))
  | (_, _, JumpDir.fromSouth) => inferInstanceAs (Decidable (_ ∧ _))

/-- The successor grid the source builds for one jump, read off the three
assignment statements of row_configs / col_configs. -/
def sourceSucc (g : Grid) (t : Nat × Nat × JumpDir) : Grid :=
  match t with
  | (i, j, JumpDir.fromWest) =>
      setCell (setCell (setCell g i j Marker.peg) i (j - 2) Marker.empty)
        i (j - 1) Marker.empty
  | (i, j, JumpDir.fromEast) =>
      setCell (setCell (setCell g i j Marker.peg) i (j + 2) Marker.empty)
        i (j + 1) Marker.empty
  | (i, j, JumpDir.fromNorth) =>
      setCell (setCell (setCell g i j Marker.peg) (i - 2) j Marker.empty)
        (i - 1) j Marker.empty
  | (i, j, JumpDir.fromSouth) =>
      setCell (setCell (setCell g i j Marker.peg) (i + 1) j Marker.empty)
        (i + 2) j Marker.empty

/-- Horizontal jump pairs generated at cell (i, j), in the source's order:
the guard of each branch of row_configs, tagging with the direction. -/
def cellJumpsH (g : Grid) (i j : Nat) : List (Nat × Nat × JumpDir) :=
  if cellAt g i j = Marker.empty then
    (if 2 ≤ j ∧ cellAt g i (j - 2) = Marker.peg ∧
        cellAt g i (j - 1) = Marker.peg then
      [(i, j, JumpDir.fromWest)] else []) ++
    (if j + 2 < (g.headD []).length ∧ cellAt g i (j + 2) = Marker.peg ∧
        cellAt g i (j + 1) = Marker.peg then
      [(i, j, JumpDir.fromEast)] else [])
  else []

/-- Vertical jump pairs generated at cell (i, j), in the source's order. -/
def cellJumpsV (g : Grid) (i j : Nat) : List (Nat × Nat × JumpDir) :=
  if cellAt g i j = Marker.empty then
    (if 2 ≤ i ∧ cellAt g (i - 2) j = Marker.peg ∧
        cellAt g (i - 1) j = Marker.peg then
      [(i, j, JumpDir.fromNorth)] else []) ++
    (if i + 2 < g.length ∧ cellAt g (i + 2) j = Marker.peg ∧
        cellAt g (i + 1) j = Marker.peg then
      [(i, j, JumpDir.fromSouth)] else [])
  else []

/-- All jump pairs in the order the source's extensions() emits them:
the horizontal pass over all cells, then the vertical pass. -/
def jumpList (g : Grid) : List (Nat × Nat × JumpDir) :=
  (List.range g.length).flatMap (fun i =>
    (List.range (g.headD []).length).flatMap (fun j => cellJumpsH g i j)) ++
  (List.range g.length).flatMap (fun i =>
    (List.range (g.headD []).length).flatMap (fun j => cellJumpsV g i j))

/-- Claim C1's description of one successor: the landing cell holds "peg",
the origin cell (offset 2) and the jumped-over cell (offset 1) hold
"empty", every other cell equals the receiver's cell, and the shape is
unchanged. -/
def SuccessorSpec (g : Grid) (t : Nat × Nat × JumpDir) (g2 : Grid) : Prop :=
  g2.length = g.length ∧
  (∀ r, (g2.getD r []).length = (g.getD r []).length) ∧
  (∀ r c, r < g.length → c < (g.getD r []).length →
    cellAt g2 r c =
      if r = t.1 ∧ c = t.2.1 then Marker.peg
      else if r = (originOf t).1 ∧ c = (originOf t).2 then Marker.empty
      else if r = (overOf t).1 ∧ c = (overOf t).2 then Marker.empty
      else cellAt g r c)

/- ------------------------------------------------------------------ -/
/- Lemmas about reading and writing cells.                             -/
/- ------------------------------------------------------------------ -/

theorem getD_set_list {α : Type} (l : List α) (i j : Nat) (v d : α) :
    (l.set i v).getD j d = if i = j ∧ i < l.length then v else l.getD j d := by
  rw [List.getD_eq_getElem?_getD, List.getD_eq_getElem?_getD,
    List.getElem?_set]
  by_cases hij : i = j
  · subst hij
    by_cases hi : i < l.length
    · simp [hi]
    · simp only [hi, and_false, ite_false, ite_true]
      rw [List.getElem?_eq_none (by omega)]
  · simp [hij]

theorem length_setCell (g : Grid) (a b : Nat) (v : Marker) :
    (setCell g a b v).length = g.length := by
  unfold setCell; exact List.length_set _ _ _

theorem rowLen_setCell (g : Grid) (a b r : Nat) (v : Marker) :
    ((setCell g a b v).getD r []).length = (g.getD r []).length := by
  unfold setCell
  rw [getD_set_list]
  split_ifs with h
  · rw [List.length_set, h.1]
  · rfl

theorem cellAt_setCell (g : Grid) (a b r c : Nat) (v : Marker) :
    cellAt (setCell g a b v) r c =
      if a = r ∧ b = c ∧ a < g.length ∧ b < (g.getD a []).length then v
      else cellAt g r c := by
  unfold cellAt setCell
  rw [getD_set_list]
  by_cases h1 : a = r ∧ a < g.length
  · rw [if_pos h1, getD_set_list]
    obtain ⟨har, halen⟩ := h1
    subst har
    by_cases h2 : b = c ∧ b < (g.getD a []).length
    · rw [if_pos h2, if_pos ⟨rfl, h2.1, halen, h2.2⟩]
    · rw [if_neg h2, if_neg (fun hcon => h2 ⟨hcon.2.1, hcon.2.2.2⟩)]
  · rw [if_neg h1, if_neg (fun hcon => h1 ⟨hcon.1, hcon.2.2.1⟩)]

theorem flatMap_congr_mem {α β : Type} (l : List α) (f g : α → List β)
    (h : ∀ a ∈ l, f a = g a) : l.flatMap f = l.flatMap g := by
  induction l with
  | nil => rfl
  | cons x t ih =>
    rw [List.flatMap_cons, List.flatMap_cons, h x (by simp)]
    rw [ih (fun a ha => h a (by simp [ha]))]

/-- The source's extensions() emits exactly the successor grids of the jump
pairs of `jumpList`, in that order, each paired with the receiver's
marker set. -/
theorem gps_extensions_eq_jumpMap (p : GridPegSolitairePuzzle) :
    p.extensions = (jumpList p.marker).map
      (fun t => ⟨sourceSucc p.marker t, p.marker_set⟩) := by
  unfold GridPegSolitairePuzzle.extensions jumpList
  rw [List.map_append]
  congr 1
  · unfold GridPegSolitairePuzzle.row_configs
    conv_rhs => rw [List.map_flatMap]
    apply flatMap_congr_mem
    intro i _
    conv_rhs => rw [List.map_flatMap]
    apply flatMap_congr_mem
    intro j _
    unfold cellJumpsH
    by_cases he : cellAt p.marker i j = Marker.empty
    · rw [if_pos he, if_pos he, List.map_append]
      congr 1
      · by_cases hw : 2 ≤ j ∧ cellAt p.marker i (j - 2) = Marker.peg ∧
            cellAt p.marker i (j - 1) = Marker.peg
        · rw [if_pos hw, if_pos hw]; rfl
        · rw [if_neg hw, if_neg hw]; rfl
      · by_cases hw : j + 2 < (p.marker.headD []).length ∧
            cellAt p.marker i (j + 2) = Marker.peg ∧
            cellAt p.marker i (j + 1) = Marker.peg
        · rw [if_pos hw, if_pos hw]; rfl
        · rw [if_neg hw, if_neg hw]; rfl
    · rw [if_neg he, if_neg he]; rfl
  · unfold GridPegSolitairePuzzle.col_configs
    conv_rhs => rw [List.map_flatMap]
    apply flatMap_congr_mem
    intro i _
    conv_rhs => rw [List.map_flatMap]
    apply flatMap_congr_mem
    intro j _
    unfold cellJumpsV
    by_cases he : cellAt p.marker i j = Marker.empty
    · rw [if_pos he, if_pos he, List.map_append]
      congr 1
      · by_cases hw : 2 ≤ i ∧ cellAt p.marker (i - 2) j = Marker.peg ∧
            cellAt p.marker (i - 1) j = Marker.peg
        · rw [if_pos hw, if_pos hw]; rfl
        · rw [if_neg hw, if_neg hw]; rfl
      · by_cases hw : i + 2 < p.marker.length ∧
            cellAt p.marker (i + 2) j = Marker.peg ∧
            cellAt p.marker (i + 1) j = Marker.peg
        · rw [if_pos hw, if_pos hw]; rfl
        · rw [if_neg hw, if_neg hw]; rfl
    · rw [if_neg he, if_neg he]; rfl

theorem mem_cellJumpsH (g : Grid) (i j : Nat) (t : Nat × Nat × JumpDir) :
    t ∈ cellJumpsH g i j ↔
      cellAt g i j = Marker.empty ∧
      ((t = (i, j, JumpDir.fromWest) ∧ 2 ≤ j ∧
          cellAt g i (j - 2) = Marker.peg ∧ cellAt g i (j - 1) = Marker.peg) ∨
       (t = (i, j, JumpDir.fromEast) ∧ j + 2 < (g.headD []).length ∧
          cellAt g i (j + 2) = Marker.peg ∧ cellAt g i (j + 1) = Marker.peg)) := by
  unfold cellJumpsH
  split_ifs with he hw he2 <;>
    simp_all [List.mem_append]

theorem mem_cellJumpsV (g : Grid) (i j : Nat) (t : Nat × Nat × JumpDir) :
    t ∈ cellJumpsV g i j ↔
      cellAt g i j = Marker.empty ∧
      ((t = (i, j, JumpDir.fromNorth) ∧ 2 ≤ i ∧
          cellAt g (i - 2) j = Marker.peg ∧ cellAt g (i - 1) j = Marker.peg) ∨
       (t = (i, j, JumpDir.fromSouth) ∧ i + 2 < g.length ∧
          cellAt g (i + 2) j = Marker.peg ∧ cellAt g (i + 1) j = Marker.peg)) := by
  unfold cellJumpsV
  split_ifs with he hw he2 <;>
    simp_all [List.mem_append]

theorem idx_of_mem_cellJumpsH (g : Grid) (i j : Nat)
    (t : Nat × Nat × JumpDir) (h : t ∈ cellJumpsH g i j) :
    t.1 = i ∧ t.2.1 = j ∧ (t.2.2 = JumpDir.fromWest ∨ t.2.2 = JumpDir.fromEast) := by
  rw [mem_cellJumpsH] at h
  obtain ⟨-, h | h⟩ := h <;> obtain ⟨rfl, -⟩ := h
  · exact ⟨rfl, rfl, Or.inl rfl⟩
  · exact ⟨rfl, rfl, Or.inr rfl⟩

theorem idx_of_mem_cellJumpsV (g : Grid) (i j : Nat)
    (t : Nat × Nat × JumpDir) (h : t ∈ cellJumpsV g i j) :
    t.1 = i ∧ t.2.1 = j ∧ (t.2.2 = JumpDir.fromNorth ∨ t.2.2 = JumpDir.fromSouth) := by
  rw [mem_cellJumpsV] at h
  obtain ⟨-, h | h⟩ := h <;> obtain ⟨rfl, -⟩ := h
  · exact ⟨rfl, rfl, Or.inl rfl⟩
  · exact ⟨rfl, rfl, Or.inr rfl⟩

theorem mem_jumpList (g : Grid) (t : Nat × Nat × JumpDir) :
    t ∈ jumpList g ↔ Qualifies g t := by
  unfold jumpList
  rw [List.mem_append]
  simp only [List.mem_flatMap, List.mem_range, mem_cellJumpsH, mem_cellJumpsV]
  constructor
  · rintro (⟨i, hi, j, hj, he, ⟨rfl, hg⟩ | ⟨rfl, hg⟩⟩ |
      ⟨i, hi, j, hj, he, ⟨rfl, hg⟩ | ⟨rfl, hg⟩⟩) <;>
    exact ⟨hi, hj, he, hg⟩
  · intro hq
    obtain ⟨i, j, d⟩ := t
    cases d
    case fromWest =>
      obtain ⟨hi, hj, he, hg⟩ := hq
      exact Or.inl ⟨i, hi, j, hj, he, Or.inl ⟨rfl, hg⟩⟩
    case fromEast =>
      obtain ⟨hi, hj, he, hg⟩ := hq
      exact Or.inl ⟨i, hi, j, hj, he, Or.inr ⟨rfl, hg⟩⟩
    case fromNorth =>
      obtain ⟨hi, hj, he, hg⟩ := hq
      exact Or.inr ⟨i, hi, j, hj, he, Or.inl ⟨rfl, hg⟩⟩
    case fromSouth =>
      obtain ⟨hi, hj, he, hg⟩ := hq
      exact Or.inr ⟨i, hi, j, hj, he, Or.inr ⟨rfl, hg⟩⟩

theorem nodup_cellJumpsH (g : Grid) (i j : Nat) : (cellJumpsH g i j).Nodup := by
  unfold cellJumpsH
  split_ifs <;> simp

theorem nodup_cellJumpsV (g : Grid) (i j : Nat) : (cellJumpsV g i j).Nodup := by
  unfold cellJumpsV
  split_ifs <;> simp

theorem nodup_jumpList (g : Grid) : (jumpList g).Nodup := by
  unfold jumpList
  have hH : ((List.range g.length).flatMap (fun i =>
      (List.range (g.headD []).length).flatMap (fun j => cellJumpsH g i j))).Nodup := by
    rw [List.nodup_flatMap]
    refine ⟨fun i _ => ?_, ?_⟩
    · rw [List.nodup_flatMap]
      refine ⟨fun j _ => nodup_cellJumpsH g i j, ?_⟩
      exact (List.pairwise_lt_range _).imp (fun hab =>
        List.disjoint_left.mpr (fun t ht ht2 => by
          have h1 := (idx_of_mem_cellJumpsH g i _ t ht).2.1
          have h2 := (idx_of_mem_cellJumpsH g i _ t ht2).2.1
          omega))
    · exact (List.pairwise_lt_range _).imp (fun hab =>
        List.disjoint_left.mpr (fun t ht ht2 => by
          simp only [List.mem_flatMap, List.mem_range] at ht ht2
          obtain ⟨j1, -, hm1⟩ := ht
          obtain ⟨j2, -, hm2⟩ := ht2
          have h1 := (idx_of_mem_cellJumpsH g _ j1 t hm1).1
          have h2 := (idx_of_mem_cellJumpsH g _ j2 t hm2).1
          omega))
  have hV : ((List.range g.length).flatMap (fun i =>
      (List.range (g.headD []).length).flatMap (fun j => cellJumpsV g i j))).Nodup := by
    rw [List.nodup_flatMap]
    refine ⟨fun i _ => ?_, ?_⟩
    · rw [List.nodup_flatMap]
      refine ⟨fun j _ => nodup_cellJumpsV g i j, ?_⟩
      exact (List.pairwise_lt_range _).imp (fun hab =>
        List.disjoint_left.mpr (fun t ht ht2 => by
          have h1 := (idx_of_mem_cellJumpsV g i _ t ht).2.1
          have h2 := (idx_of_mem_cellJumpsV g i _ t ht2).2.1
          omega))
    · exact (List.pairwise_lt_range _).imp (fun hab =>
        List.disjoint_left.mpr (fun t ht ht2 => by
          simp only [List.mem_flatMap, List.mem_range] at ht ht2
          obtain ⟨j1, -, hm1⟩ := ht
          obtain ⟨j2, -, hm2⟩ := ht2
          have h1 := (idx_of_mem_cellJumpsV g _ j1 t hm1).1
          have h2 := (idx_of_mem_cellJumpsV g _ j2 t hm2).1
          omega))
  refine List.Nodup.append hH hV (List.disjoint_left.mpr (fun t ht ht2 => ?_))
  simp only [List.mem_flatMap, List.mem_range] at ht ht2
  obtain ⟨i1, -, j1, -, hm1⟩ := ht
  obtain ⟨i2, -, j2, -, hm2⟩ := ht2
  have h1 := (idx_of_mem_cellJumpsH g i1 j1 t hm1).2.2
  have h2 := (idx_of_mem_cellJumpsV g i2 j2 t hm2).2.2
  rcases h1 with h1 | h1 <;> rcases h2 with h2 | h2 <;> rw [h1] at h2 <;> cases h2

theorem filter_eq_length_of_nodup {α : Type} [DecidableEq α] (l : List α)
    (hl : l.Nodup) (a : α) :
    (l.filter (fun x => x = a)).length = if a ∈ l then 1 else 0 := by
  induction l with
  | nil => simp
  | cons x t ih =>
    obtain ⟨hx, ht⟩ := List.nodup_cons.mp hl
    by_cases hxa : x = a
    · subst hxa
      have hnil : t.filter (fun y => y = x) = [] := by
        rw [List.filter_eq_nil_iff]
        intro b hb
        simp only [decide_eq_true_eq]
        intro hbx
        exact hx (hbx ▸ hb)
      simp [List.filter_cons, hnil]
    · have := ih ht
      simp only [List.filter_cons, decide_eq_true_eq, hxa, ite_false, this,
        List.mem_cons]
      have hax : ¬ a = x := fun hax => hxa hax.symm
      simp [hax]

theorem onceIn_jumpList (g : Grid) (t : Nat × Nat × JumpDir) :
    ((jumpList g).filter (fun u => u = t)).length
      = if Qualifies g t then 1 else 0 := by
  rw [filter_eq_length_of_nodup _ (nodup_jumpList g) t]
  by_cases h : Qualifies g t
  · rw [if_pos ((mem_jumpList g t).mpr h), if_pos h]
  · rw [if_neg (fun hm => h ((mem_jumpList g t).mp hm)), if_neg h]

theorem rowlen_of_rect (g : Grid)
    (hrect : ∀ r ∈ g, r.length = (g.headD []).length) (a : Nat)
    (ha : a < g.length) : (g.getD a []).length = (g.headD []).length := by
  apply hrect
  rw [List.getD_eq_getElem _ _ ha]
  exact List.getElem_mem ha

/-- The successor grid the source builds for a qualifying jump satisfies
claim C1's pointwise description. -/
theorem sourceSucc_spec (g : Grid)
    (hrect : ∀ r ∈ g, r.length = (g.headD []).length)
    (t : Nat × Nat × JumpDir) (hq : Qualifies g t) :
    SuccessorSpec g t (sourceSucc g t) := by
  obtain ⟨ti, tj, td⟩ := t
  cases td
  case fromWest =>
    obtain ⟨hi, hj, hemp, hge, hp2, hp1⟩ := hq
    have hrl : (g.getD ti []).length = (g.headD []).length :=
      rowlen_of_rect g hrect ti hi
    refine ⟨by simp [sourceSucc, length_setCell], fun r => by
      simp only [sourceSucc]
      rw [rowLen_setCell, rowLen_setCell, rowLen_setCell], fun r c hr hc => ?_⟩
    simp only [sourceSucc, cellAt_setCell, length_setCell, rowLen_setCell,
      originOf, overOf]
    split_ifs <;> first | rfl | omega
  case fromEast =>
    obtain ⟨hi, hj, hemp, hge, hp2, hp1⟩ := hq
    have hrl : (g.getD ti []).length = (g.headD []).length :=
      rowlen_of_rect g hrect ti hi
    refine ⟨by simp [sourceSucc, length_setCell], fun r => by
      simp only [sourceSucc]
      rw [rowLen_setCell, rowLen_setCell, rowLen_setCell], fun r c hr hc => ?_⟩
    simp only [sourceSucc, cellAt_setCell, length_setCell, rowLen_setCell,
      originOf, overOf]
    split_ifs <;> first | rfl | omega
  case fromNorth =>
    obtain ⟨hi, hj, hemp, hge, hp2, hp1⟩ := hq
    have hrl : (g.getD ti []).length = (g.headD []).length :=
      rowlen_of_rect g hrect ti hi
    have hrl2 : (g.getD (ti - 2) []).length = (g.headD []).length :=
      rowlen_of_rect g hrect (ti - 2) (by omega)
    have hrl1 : (g.getD (ti - 1) []).length = (g.headD []).length :=
      rowlen_of_rect g hrect (ti - 1) (by omega)
    refine ⟨by simp [sourceSucc, length_setCell], fun r => by
      simp only [sourceSucc]
      rw [rowLen_setCell, rowLen_setCell, rowLen_setCell], fun r c hr hc => ?_⟩
    have hcb : c < (g.headD []).length := by
      rw [← rowlen_of_rect g hrect r hr]; exact hc
    simp only [sourceSucc, cellAt_setCell, length_setCell, rowLen_setCell,
      originOf, overOf]
    split_ifs <;> first | rfl | omega
  case fromSouth =>
    obtain ⟨hi, hj, hemp, hge, hp2, hp1⟩ := hq
    have hrl : (g.getD ti []).length = (g.headD []).length :=
      rowlen_of_rect g hrect ti hi
    have hrl2 : (g.getD (ti + 2) []).length = (g.headD []).length :=
      rowlen_of_rect g hrect (ti + 2) (by omega)
    have hrl1 : (g.getD (ti + 1) []).length = (g.headD []).length :=
      rowlen_of_rect g hrect (ti + 1) (by omega)
    refine ⟨by simp [sourceSucc, length_setCell], fun r => by
      simp only [sourceSucc]
      rw [rowLen_setCell, rowLen_setCell, rowLen_setCell], fun r c hr hc => ?_⟩
    have hcb : c < (g.headD []).length := by
      rw [← rowlen_of_rect g hrect r hr]; exact hc
    simp only [sourceSucc, cellAt_setCell, length_setCell, rowLen_setCell,
      originOf, overOf]
    split_ifs <;> first | rfl | omega

theorem qualifies_head (g : Grid) (t : Nat × Nat × JumpDir)
    (hq : Qualifies g t) :
    t.1 < g.length ∧ t.2.1 < (g.headD []).length ∧
      cellAt g t.1 t.2.1 = Marker.empty := by
  obtain ⟨i, j, d⟩ := t
  cases d <;> exact ⟨hq.1, hq.2.1, hq.2.2.1⟩

/-- Claim C1: for every valid peg-solitaire configuration, extensions()
returns exactly one successor per qualifying (empty cell, direction) pair:
extensions() is the image of the jump-pair list, each qualifying pair occurs
exactly once in that list, each successor satisfies the pointwise
description (origin and jumped-over cells become "empty", landing cell
becomes "peg", all other cells copied, marker set kept), and a grid with no
"empty" cell yields the empty list. -/
theorem gps_extensions_exact (p : GridPegSolitairePuzzle) (hv : ValidGPS p) :
    p.extensions = (jumpList p.marker).map
        (fun t => ⟨sourceSucc p.marker t, p.marker_set⟩) ∧
    (∀ t, ((jumpList p.marker).filter (fun u => u = t)).length
        = if Qualifies p.marker t then 1 else 0) ∧
    (∀ t, Qualifies p.marker t →
        SuccessorSpec p.marker t (sourceSucc p.marker t)) ∧
    ((∀ r ∈ p.marker, ∀ c ∈ r, c ≠ Marker.empty) → p.extensions = []) := by
  refine ⟨gps_extensions_eq_jumpMap p, onceIn_jumpList p.marker,
    fun t hq => sourceSucc_spec p.marker hv.2.1 t hq, fun hno => ?_⟩
  rw [gps_extensions_eq_jumpMap p]
  have hnil : jumpList p.marker = [] := by
    rw [List.eq_nil_iff_forall_not_mem]
    intro t ht
    have hq := (mem_jumpList p.marker t).mp ht
    obtain ⟨hi, hj, he⟩ := qualifies_head p.marker t hq
    have hrl : (p.marker.getD t.1 []).length = (p.marker.headD []).length :=
      rowlen_of_rect p.marker hv.2.1 t.1 hi
    have hjr : t.2.1 < (p.marker.getD t.1 []).length := by omega
    have hrowmem : p.marker.getD t.1 [] ∈ p.marker := by
      rw [List.getD_eq_getElem _ _ hi]
      exact List.getElem_mem hi
    have hcellmem : cellAt p.marker t.1 t.2.1 ∈ p.marker.getD t.1 [] := by
      unfold cellAt
      rw [List.getD_eq_getElem _ _ hjr]
      exact List.getElem_mem hjr
    exact hno _ hrowmem _ hcellmem he
  rw [hnil]
  rfl

/-- Witness for gps_extensions_exact: a 1x3 grid "* * ." has the single
west-jump successor ". . *". -/
theorem gps_extensions_exact_witness :
    ValidGPS (GridPegSolitairePuzzle.mk [[Marker.peg, Marker.peg, Marker.empty]]
      {Marker.peg, Marker.empty}) ∧
    (GridPegSolitairePuzzle.mk [[Marker.peg, Marker.peg, Marker.empty]]
      {Marker.peg, Marker.empty}).extensions =
      (jumpList [[Marker.peg, Marker.peg, Marker.empty]]).map
        (fun t => ⟨sourceSucc [[Marker.peg, Marker.peg, Marker.empty]] t,
          {Marker.peg, Marker.empty}⟩) :=
  ⟨by decide, (gps_extensions_exact
    (GridPegSolitairePuzzle.mk [[Marker.peg, Marker.peg, Marker.empty]]
      {Marker.peg, Marker.empty}) (by decide)).1⟩

/- ------------------------------------------------------------------ -/
/- Peg counting across one jump (claim C9).                            -/
/- ------------------------------------------------------------------ -/

theorem filter_length_set {α : Type} (q : α → Prop) [DecidablePred q]
    (r : List α) (v d : α) :
    ∀ j, j < r.length →
      ((r.set j v).filter (fun x => decide (q x))).length
          + (if q (r.getD j d) then 1 else 0)
        = (r.filter (fun x => decide (q x))).length
          + (if q v then 1 else 0) := by
  induction r with
  | nil => intro j hj; simp at hj
  | cons x t ih =>
    intro j hj
    cases j with
    | zero =>
      rw [List.set_cons_zero, List.getD_cons_zero]
      by_cases hv : q v <;> by_cases hx : q x
      · rw [List.filter_cons_of_pos (by simpa using hv),
          List.filter_cons_of_pos (by simpa using hx),
          if_pos hx, if_pos hv, List.length_cons, List.length_cons]
      · rw [List.filter_cons_of_pos (by simpa using hv),
          List.filter_cons_of_neg (by simpa using hx),
          if_neg hx, if_pos hv, List.length_cons]
      · rw [List.filter_cons_of_neg (by simpa using hv),
          List.filter_cons_of_pos (by simpa using hx),
          if_pos hx, if_neg hv, List.length_cons]
      · rw [List.filter_cons_of_neg (by simpa using hv),
          List.filter_cons_of_neg (by simpa using hx),
          if_neg hx, if_neg hv]
    | succ n =>
      rw [List.set_cons_succ, List.getD_cons_succ]
      have hstep := ih n (by simpa using hj)
      by_cases hx : q x
      · rw [List.filter_cons_of_pos (by simpa using hx),
          List.filter_cons_of_pos (by simpa using hx),
          List.length_cons, List.length_cons]
        omega
      · rw [List.filter_cons_of_neg (by simpa using hx),
          List.filter_cons_of_neg (by simpa using hx)]
        omega

theorem map_sum_set (f : List Marker → Nat) (g : Grid) (r2 : List Marker) :
    ∀ i, i < g.length →
      ((g.set i r2).map f).sum + f (g.getD i [])
        = (g.map f).sum + f r2 := by
  induction g with
  | nil => intro i hi; simp at hi
  | cons x t ih =>
    intro i hi
    cases i with
    | zero =>
      rw [List.set_cons_zero, List.getD_cons_zero]
      simp [Nat.add_comm, Nat.add_assoc, Nat.add_left_comm]
    | succ n =>
      rw [List.set_cons_succ, List.getD_cons_succ]
      have := ih n (by simpa using hi)
      simp only [List.map_cons, List.sum_cons]
      omega

theorem pegTotal_eq_sum (g : Grid) :
    pegTotal g = (g.map (fun r =>
      (r.filter (fun c => decide (c = Marker.peg))).length)).sum :=
  length_filter_flatten _ g

theorem pegTotal_setCell (g : Grid) (a b : Nat) (v : Marker)
    (ha : a < g.length) (hb : b < (g.getD a []).length) :
    pegTotal (setCell g a b v) + (if cellAt g a b = Marker.peg then 1 else 0)
      = pegTotal g + (if v = Marker.peg then 1 else 0) := by
  unfold setCell
  rw [pegTotal_eq_sum, pegTotal_eq_sum]
  have h1 := map_sum_set (fun r =>
    (r.filter (fun c => decide (c = Marker.peg))).length) g
    ((g.getD a []).set b v) a ha
  have h2 := filter_length_set (fun c => c = Marker.peg)
    (g.getD a []) v Marker.unused b hb
  dsimp only at h1 h2
  unfold cellAt
  by_cases hc : (g.getD a []).getD b Marker.unused = Marker.peg <;>
    by_cases hv : v = Marker.peg
  · rw [if_pos hc, if_pos hv] at h2; rw [if_pos hc, if_pos hv]; omega
  · rw [if_pos hc, if_neg hv] at h2; rw [if_pos hc, if_neg hv]; omega
  · rw [if_neg hc, if_pos hv] at h2; rw [if_neg hc, if_pos hv]; omega
  · rw [if_neg hc, if_neg hv] at h2; rw [if_neg hc, if_neg hv]; omega

theorem length_sourceSucc (g : Grid) (t : Nat × Nat × JumpDir) :
    (sourceSucc g t).length = g.length := by
  obtain ⟨i, j, d⟩ := t
  cases d <;> simp [sourceSucc, length_setCell]

theorem rowLen_sourceSucc (g : Grid) (t : Nat × Nat × JumpDir) (r : Nat) :
    ((sourceSucc g t).getD r []).length = (g.getD r []).length := by
  obtain ⟨i, j, d⟩ := t
  cases d
  all_goals
    simp only [sourceSucc]
    rw [rowLen_setCell, rowLen_setCell, rowLen_setCell]

/-- One qualifying jump removes exactly one peg. -/
theorem sourceSucc_pegTotal (g : Grid)
    (hrect : ∀ r ∈ g, r.length = (g.headD []).length)
    (t : Nat × Nat × JumpDir) (hq : Qualifies g t) :
    pegTotal (sourceSucc g t) + 1 = pegTotal g := by
  obtain ⟨ti, tj, td⟩ := t
  cases td
  case fromWest =>
    obtain ⟨hi, hj, hemp, hge, hp2, hp1⟩ := hq
    have hrl : (g.getD ti []).length = (g.headD []).length :=
      rowlen_of_rect g hrect ti hi
    have s1 := pegTotal_setCell g ti tj Marker.peg hi (by omega)
    rw [hemp, if_neg (by decide : ¬ Marker.empty = Marker.peg),
      if_pos (rfl : Marker.peg = Marker.peg)] at s1
    have c2 : cellAt (setCell g ti tj Marker.peg) ti (tj - 2)
        = Marker.peg := by
      rw [cellAt_setCell, if_neg (by omega)]
      exact hp2
    have s2 := pegTotal_setCell (setCell g ti tj Marker.peg) ti (tj - 2)
      Marker.empty (by rw [length_setCell]; exact hi)
      (by rw [rowLen_setCell]; omega)
    rw [c2, if_pos (rfl : Marker.peg = Marker.peg),
      if_neg (by decide : ¬ Marker.empty = Marker.peg)] at s2
    have c3 : cellAt (setCell (setCell g ti tj Marker.peg) ti (tj - 2)
        Marker.empty) ti (tj - 1) = Marker.peg := by
      rw [cellAt_setCell, length_setCell, rowLen_setCell, if_neg (by omega),
        cellAt_setCell, if_neg (by omega)]
      exact hp1
    have s3 := pegTotal_setCell (setCell (setCell g ti tj Marker.peg) ti
      (tj - 2) Marker.empty) ti (tj - 1) Marker.empty
      (by rw [length_setCell, length_setCell]; exact hi)
      (by rw [rowLen_setCell, rowLen_setCell]; omega)
    rw [c3, if_pos (rfl : Marker.peg = Marker.peg),
      if_neg (by decide : ¬ Marker.empty = Marker.peg)] at s3
    simp only [sourceSucc]
    omega
  case fromEast =>
    obtain ⟨hi, hj, hemp, hge, hp2, hp1⟩ := hq
    have hrl : (g.getD ti []).length = (g.headD []).length :=
      rowlen_of_rect g hrect ti hi
    have s1 := pegTotal_setCell g ti tj Marker.peg hi (by omega)
    rw [hemp, if_neg (by decide : ¬ Marker.empty = Marker.peg),
      if_pos (rfl : Marker.peg = Marker.peg)] at s1
    have c2 : cellAt (setCell g ti tj Marker.peg) ti (tj + 2)
        = Marker.peg := by
      rw [cellAt_setCell, if_neg (by omega)]
      exact hp2
    have s2 := pegTotal_setCell (setCell g ti tj Marker.peg) ti (tj + 2)
      Marker.empty (by rw [length_setCell]; exact hi)
      (by rw [rowLen_setCell]; omega)
    rw [c2, if_pos (rfl : Marker.peg = Marker.peg),
      if_neg (by decide : ¬ Marker.empty = Marker.peg)] at s2
    have c3 : cellAt (setCell (setCell g ti tj Marker.peg) ti (tj + 2)
        Marker.empty) ti (tj + 1) = Marker.peg := by
      rw [cellAt_setCell, length_setCell, rowLen_setCell, if_neg (by omega),
        cellAt_setCell, if_neg (by omega)]
      exact hp1
    have s3 := pegTotal_setCell (setCell (setCell g ti tj Marker.peg) ti
      (tj + 2) Marker.empty) ti (tj + 1) Marker.empty
      (by rw [length_setCell, length_setCell]; exact hi)
      (by rw [rowLen_setCell, rowLen_setCell]; omega)
    rw [c3, if_pos (rfl : Marker.peg = Marker.peg),
      if_neg (by decide : ¬ Marker.empty = Marker.peg)] at s3
    simp only [sourceSucc]
    omega
  case fromNorth =>
    obtain ⟨hi, hj, hemp, hge, hp2, hp1⟩ := hq
    have hrl : (g.getD ti []).length = (g.headD []).length :=
      rowlen_of_rect g hrect ti hi
    have hrl2 : (g.getD (ti - 2) []).length = (g.headD []).length :=
      rowlen_of_rect g hrect (ti - 2) (by omega)
    have hrl1 : (g.getD (ti - 1) []).length = (g.headD []).length :=
      rowlen_of_rect g hrect (ti - 1) (by omega)
    have s1 := pegTotal_setCell g ti tj Marker.peg hi (by omega)
    rw [hemp, if_neg (by decide : ¬ Marker.empty = Marker.peg),
      if_pos (rfl : Marker.peg = Marker.peg)] at s1
    have c2 : cellAt (setCell g ti tj Marker.peg) (ti - 2) tj
        = Marker.peg := by
      rw [cellAt_setCell, if_neg (by omega)]
      exact hp2
    have s2 := pegTotal_setCell (setCell g ti tj Marker.peg) (ti - 2) tj
      Marker.empty (by rw [length_setCell]; omega)
      (by rw [rowLen_setCell]; omega)
    rw [c2, if_pos (rfl : Marker.peg = Marker.peg),
      if_neg (by decide : ¬ Marker.empty = Marker.peg)] at s2
    have c3 : cellAt (setCell (setCell g ti tj Marker.peg) (ti - 2) tj
        Marker.empty) (ti - 1) tj = Marker.peg := by
      rw [cellAt_setCell, length_setCell, rowLen_setCell, if_neg (by omega),
        cellAt_setCell, if_neg (by omega)]
      exact hp1
    have s3 := pegTotal_setCell (setCell (setCell g ti tj Marker.peg)
      (ti - 2) tj Marker.empty) (ti - 1) tj Marker.empty
      (by rw [length_setCell, length_setCell]; omega)
      (by rw [rowLen_setCell, rowLen_setCell]; omega)
    rw [c3, if_pos (rfl : Marker.peg = Marker.peg),
      if_neg (by decide : ¬ Marker.empty = Marker.peg)] at s3
    simp only [sourceSucc]
    omega
  case fromSouth =>
    obtain ⟨hi, hj, hemp, hge, hp2, hp1⟩ := hq
    have hrl : (g.getD ti []).length = (g.headD []).length :=
      rowlen_of_rect g hrect ti hi
    have hrl2 : (g.getD (ti + 2) []).length = (g.headD []).length :=
      rowlen_of_rect g hrect (ti + 2) (by omega)
    have hrl1 : (g.getD (ti + 1) []).length = (g.headD []).length :=
      rowlen_of_rect g hrect (ti + 1) (by omega)
    have s1 := pegTotal_setCell g ti tj Marker.peg hi (by omega)
    rw [hemp, if_neg (by decide : ¬ Marker.empty = Marker.peg),
      if_pos (rfl : Marker.peg = Marker.peg)] at s1
    have c2 : cellAt (setCell g ti tj Marker.peg) (ti + 1) tj
        = Marker.peg := by
      rw [cellAt_setCell, if_neg (by omega)]
      exact hp1
    have s2 := pegTotal_setCell (setCell g ti tj Marker.peg) (ti + 1) tj
      Marker.empty (by rw [length_setCell]; omega)
      (by rw [rowLen_setCell]; omega)
    rw [c2, if_pos (rfl : Marker.peg = Marker.peg),
      if_neg (by decide : ¬ Marker.empty = Marker.peg)] at s2
    have c3 : cellAt (setCell (setCell g ti tj Marker.peg) (ti + 1) tj
        Marker.empty) (ti + 2) tj = Marker.peg := by
      rw [cellAt_setCell, length_setCell, rowLen_setCell, if_neg (by omega),
        cellAt_setCell, if_neg (by omega)]
      exact hp2
    have s3 := pegTotal_setCell (setCell (setCell g ti tj Marker.peg)
      (ti + 1) tj Marker.empty) (ti + 2) tj Marker.empty
      (by rw [length_setCell, length_setCell]; omega)
      (by rw [rowLen_setCell, rowLen_setCell]; omega)
    rw [c3, if_pos (rfl : Marker.peg = Marker.peg),
      if_neg (by decide : ¬ Marker.empty = Marker.peg)] at s3
    simp only [sourceSucc]
    omega

/-- Claim C9: every successor of a valid peg-solitaire configuration has
exactly one fewer "peg" cell, the same grid dimensions, and the same
declared marker set; hence the peg count strictly decreases with every
move. -/
theorem gps_extensions_peg_decrease (p : GridPegSolitairePuzzle)
    (hv : ValidGPS p) :
    ∀ s ∈ p.extensions,
      pegTotal s.marker + 1 = pegTotal p.marker ∧
      pegTotal s.marker < pegTotal p.marker ∧
      s.marker.length = p.marker.length ∧
      (∀ r, (s.marker.getD r []).length = (p.marker.getD r []).length) ∧
      s.marker_set = p.marker_set := by
  intro s hs
  rw [gps_extensions_eq_jumpMap] at hs
  obtain ⟨t, ht, rfl⟩ := List.mem_map.mp hs
  have hq := (mem_jumpList _ t).mp ht
  have hpeg := sourceSucc_pegTotal p.marker hv.2.1 t hq
  refine ⟨hpeg, ?_, length_sourceSucc p.marker t,
    rowLen_sourceSucc p.marker t, rfl⟩
  dsimp only
  omega

/-- Witness for gps_extensions_peg_decrease: the 3x1 grid "* / * / ." has
the single successor ". / . / *", with peg count 1 = 2 - 1. -/
theorem gps_extensions_peg_decrease_witness :
    pegTotal (GridPegSolitairePuzzle.mk
      [[Marker.empty], [Marker.empty], [Marker.peg]]
      {Marker.peg, Marker.empty}).marker + 1
      = pegTotal (GridPegSolitairePuzzle.mk
        [[Marker.peg], [Marker.peg], [Marker.empty]]
        {Marker.peg, Marker.empty}).marker :=
  (gps_extensions_peg_decrease
    (GridPegSolitairePuzzle.mk [[Marker.peg], [Marker.peg], [Marker.empty]]
      {Marker.peg, Marker.empty}) (by decide)
    (GridPegSolitairePuzzle.mk [[Marker.empty], [Marker.empty], [Marker.peg]]
      {Marker.peg, Marker.empty}) (by decide)).1

/- ------------------------------------------------------------------ -/
/- Word ladder (word_ladder_puzzle.py).                                -/
/- ------------------------------------------------------------------ -/

/-- The fixed 26-letter candidate alphabet `self._chars`
(word_ladder_puzzle.py line 23). -/
def wlChars : List Char := "abcdefghijklmnopqrstuvwxyz".toList

/-- `WordLadderPuzzle`: `_from_word`, `_to_word`, `_word_set`.  Words are
lists of characters, the dictionary a finite set of words; the constructor
(lines 9-23) stores the three fields without validation. -/
structure WordLadderPuzzle where
  from_word : List Char
  to_word : List Char
  word_set : Finset (List Char)
deriving DecidableEq

/-- `extensions` of word_ladder_puzzle.py lines 67-90: for every position i
of `_from_word`, for every alphabet character other than the character at
position i, keep the word `_from_word[:i] + x + _from_word[i+1:]` when it
is in `_word_set`.  (The source iterates a Python set difference
`set(self._chars) - set(self._from_word[i])`; its elements are exactly the
alphabet characters different from `_from_word[i]`, modelled here as a
filter of the alphabet; no settled claim depends on candidate order.) -/
def WordLadderPuzzle.extensions (p : WordLadderPuzzle) :
    List WordLadderPuzzle :=
  (List.range p.from_word.length).flatMap (fun i =>
    ((wlChars.filter (fun x => x ≠ p.from_word.getD i ' ')).filter (fun x =>
        (p.from_word.take i ++ [x] ++ p.from_word.drop (i + 1))
          ∈ p.word_set)).map
      (fun x => ⟨p.from_word.take i ++ [x] ++ p.from_word.drop (i + 1),
        p.to_word, p.word_set⟩))

/-- `is_solved` of word_ladder_puzzle.py lines 92-108. -/
def WordLadderPuzzle.is_solved (p : WordLadderPuzzle) : Bool :=
  p.from_word == p.to_word

theorem take_set_drop (w : List Char) (i : Nat) (x : Char)
    (h : i < w.length) :
    w.take i ++ [x] ++ w.drop (i + 1) = w.set i x := by
  rw [List.set_eq_take_append_cons_drop, if_pos h, List.append_assoc,
    List.singleton_append]

theorem mem_wl_extensions (p q : WordLadderPuzzle) :
    q ∈ p.extensions ↔ ∃ i, i < p.from_word.length ∧ ∃ x, x ∈ wlChars ∧
      x ≠ p.from_word.getD i ' ' ∧ (p.from_word.set i x) ∈ p.word_set ∧
      q = ⟨p.from_word.set i x, p.to_word, p.word_set⟩ := by
  unfold WordLadderPuzzle.extensions
  simp only [List.mem_flatMap, List.mem_range, List.mem_map, List.mem_filter,
    decide_eq_true_eq, ne_eq]
  constructor
  · rintro ⟨i, hi, x, ⟨⟨hxc, hxne⟩, hmem⟩, rfl⟩
    rw [take_set_drop _ _ _ hi] at hmem
    refine ⟨i, hi, x, hxc, hxne, hmem, ?_⟩
    rw [take_set_drop _ _ _ hi]
  · rintro ⟨i, hi, x, hxc, hxne, hmem, rfl⟩
    refine ⟨i, hi, x, ⟨⟨hxc, hxne⟩, ?_⟩, ?_⟩
    · rw [take_set_drop _ _ _ hi]
      exact hmem
    · rw [take_set_drop _ _ _ hi]

theorem set_getD_same (w : List Char) (i : Nat) (x : Char)
    (hi : i < w.length) : (w.set i x).getD i ' ' = x := by
  rw [getD_set_list]
  exact if_pos ⟨rfl, hi⟩

theorem set_getD_other (w : List Char) (i : Nat) (x : Char) (j : Nat)
    (hij : i ≠ j) : (w.set i x).getD j ' ' = w.getD j ' ' := by
  rw [getD_set_list, if_neg (fun h => hij h.1)]

/-- Claim C2: the currentWord values of extensions() are exactly the
dictionary members obtained by replacing one character of currentWord with
a different lowercase letter; no element keeps the receiver's currentWord;
every element differs from it in exactly one position; targetWord and the
dictionary are carried unchanged. -/
theorem wl_extensions_exact (p : WordLadderPuzzle) :
    (∀ w : List Char,
      (∃ q ∈ p.extensions, q.from_word = w) ↔
        (w ∈ p.word_set ∧ ∃ i, i < p.from_word.length ∧ ∃ c, c ∈ wlChars ∧
          c ≠ p.from_word.getD i ' ' ∧ w = p.from_word.set i c)) ∧
    (∀ q ∈ p.extensions, q.from_word ≠ p.from_word) ∧
    (∀ q ∈ p.extensions, q.from_word.length = p.from_word.length ∧
      ∃ i, i < p.from_word.length ∧
        q.from_word.getD i ' ' ≠ p.from_word.getD i ' ' ∧
        ∀ j, j ≠ i → q.from_word.getD j ' ' = p.from_word.getD j ' ') ∧
    (∀ q ∈ p.extensions, q.to_word = p.to_word ∧
      q.word_set = p.word_set) := by
  refine ⟨fun w => ?_, fun q hq => ?_, fun q hq => ?_, fun q hq => ?_⟩
  · constructor
    · rintro ⟨q, hq, rfl⟩
      obtain ⟨i, hi, x, hxc, hxne, hmem, rfl⟩ := (mem_wl_extensions p q).mp hq
      exact ⟨hmem, i, hi, x, hxc, hxne, rfl⟩
    · rintro ⟨hmem, i, hi, c, hc, hcne, rfl⟩
      exact ⟨⟨p.from_word.set i c, p.to_word, p.word_set⟩,
        (mem_wl_extensions p _).mpr ⟨i, hi, c, hc, hcne, hmem, rfl⟩, rfl⟩
  · obtain ⟨i, hi, x, hxc, hxne, hmem, rfl⟩ := (mem_wl_extensions p q).mp hq
    intro heq
    apply hxne
    have := set_getD_same p.from_word i x hi
    dsimp only at heq
    rw [heq] at this
    exact this.symm
  · obtain ⟨i, hi, x, hxc, hxne, hmem, rfl⟩ := (mem_wl_extensions p q).mp hq
    refine ⟨List.length_set _ _ _, i, hi, ?_, fun j hj => ?_⟩
    · rw [set_getD_same p.from_word i x hi]
      exact hxne
    · exact set_getD_other p.from_word i x j (fun h => hj h.symm)
  · obtain ⟨i, hi, x, hxc, hxne, hmem, rfl⟩ := (mem_wl_extensions p q).mp hq
    exact ⟨rfl, rfl⟩

/-- The number of candidate words generated and dictionary-tested by one
call to extensions(): for each position i, the source iterates the set
difference `set(self._chars) - set(self._from_word[i])` and tests each
produced word, so the count per position is the number of alphabet
characters different from the character at position i. -/
def WordLadderPuzzle.candidatesTested (p : WordLadderPuzzle) : Nat :=
  ((List.range p.from_word.length).map (fun i =>
    (wlChars.filter (fun x => x ≠ p.from_word.getD i ' ')).length)).sum

/-- The dictionary holding every one-letter lowercase word. -/
def wlCexDict : Finset (List Char) := (wlChars.map (fun c => [c])).toFinset

/-- The word-ladder puzzle whose currentWord is the single uppercase
letter A, with the all-one-letter-words dictionary. -/
def wlCexPuzzle : WordLadderPuzzle :=
  ⟨['A'], ['z'], wlCexDict⟩

/-- Counterexample to claim C7 as stated: for the word "A" (not lowercase)
all 26 alphabet letters survive the set difference, so 26 candidates are
generated and tested and all 26 are accepted, exceeding
25 x length("A") = 25. -/
theorem wl_candidate_bound_cex :
    wlCexPuzzle.candidatesTested = 26 ∧
    wlCexPuzzle.extensions.length = 26 ∧
    ¬ (wlCexPuzzle.candidatesTested ≤ 25 * wlCexPuzzle.from_word.length) ∧
    ¬ (wlCexPuzzle.extensions.length ≤ 25 * wlCexPuzzle.from_word.length) := by
  decide

theorem getD_mem_of_lt {α : Type} (l : List α) (i : Nat) (d : α)
    (hi : i < l.length) : l.getD i d ∈ l := by
  rw [List.getD_eq_getElem _ _ hi]
  exact List.getElem_mem hi

theorem filter_ne_length {α : Type} [DecidableEq α] (l : List α) (c : α) :
    l.Nodup → c ∈ l → (l.filter (fun x => x ≠ c)).length = l.length - 1 := by
  induction l with
  | nil => intro _ hc; cases hc
  | cons a t ih =>
    intro hnd hc
    obtain ⟨ha, hnd2⟩ := List.nodup_cons.mp hnd
    rcases List.mem_cons.mp hc with hca | hct
    · rw [List.filter_cons_of_neg (by simp [hca])]
      have hself : t.filter (fun x => x ≠ c) = t := by
        rw [List.filter_eq_self]
        intro b hb
        simp only [ne_eq, decide_eq_true_eq]
        intro hbc
        rw [hca] at hbc
        exact ha (hbc ▸ hb)
      rw [hself]
      simp
    · have hac : a ≠ c := fun h => ha (h ▸ hct)
      rw [List.filter_cons_of_pos (by simpa using hac), List.length_cons,
        ih hnd2 hct]
      have hpos : 1 ≤ t.length :=
        List.length_pos.mpr (List.ne_nil_of_mem hct)
      simp only [List.length_cons]
      omega

/-- Claim C7 amended: when every character of currentWord is one of the 26
lowercase letters, at most 25 x length(currentWord) candidate words are
generated and dictionary-tested by extensions(), and hence the returned
list has length at most 25 x length(currentWord), for every dictionary. -/
theorem wl_candidate_bound (p : WordLadderPuzzle)
    (h : ∀ c ∈ p.from_word, c ∈ wlChars) :
    p.candidatesTested ≤ 25 * p.from_word.length ∧
    p.extensions.length ≤ 25 * p.from_word.length := by
  have hnd : wlChars.Nodup := by decide
  have hlen : wlChars.length = 26 := by decide
  have key : ∀ i ∈ List.range p.from_word.length,
      (wlChars.filter (fun x => x ≠ p.from_word.getD i ' ')).length ≤ 25 := by
    intro i hi
    have hc : p.from_word.getD i ' ' ∈ wlChars :=
      h _ (getD_mem_of_lt _ _ _ (List.mem_range.mp hi))
    rw [filter_ne_length wlChars _ hnd hc, hlen]
  have hconst : ∀ (n : Nat), ((List.range n).map (fun _ => (25 : Nat))).sum
      = 25 * n := by
    intro n
    induction n with
    | zero => simp
    | succ k ihk =>
      rw [List.range_succ, List.map_append, List.sum_append, ihk]
      simp [Nat.mul_succ]
  constructor
  · unfold WordLadderPuzzle.candidatesTested
    calc ((List.range p.from_word.length).map (fun i =>
          (wlChars.filter (fun x => x ≠ p.from_word.getD i ' ')).length)).sum
        ≤ ((List.range p.from_word.length).map (fun _ => (25 : Nat))).sum :=
          List.sum_le_sum key
      _ = 25 * p.from_word.length := hconst _
  · unfold WordLadderPuzzle.extensions
    rw [List.length_flatMap]
    calc ((List.range p.from_word.length).map (List.length ∘ fun i =>
          ((wlChars.filter (fun x => x ≠ p.from_word.getD i ' ')).filter
            (fun x => (p.from_word.take i ++ [x] ++ p.from_word.drop (i + 1))
              ∈ p.word_set)).map
            (fun x => WordLadderPuzzle.mk
              (p.from_word.take i ++ [x] ++ p.from_word.drop (i + 1))
              p.to_word p.word_set))).sum
        ≤ ((List.range p.from_word.length).map (fun _ => (25 : Nat))).sum := by
          apply List.sum_le_sum
          intro i hi
          calc (List.length ∘ fun i =>
              ((wlChars.filter (fun x => x ≠ p.from_word.getD i ' ')).filter
                (fun x => (p.from_word.take i ++ [x] ++
                  p.from_word.drop (i + 1)) ∈ p.word_set)).map
                (fun x => WordLadderPuzzle.mk
                  (p.from_word.take i ++ [x] ++ p.from_word.drop (i + 1))
                  p.to_word p.word_set)) i
              = ((wlChars.filter (fun x => x ≠ p.from_word.getD i ' ')).filter
                (fun x => (p.from_word.take i ++ [x] ++
                  p.from_word.drop (i + 1)) ∈ p.word_set)).length := by
                simp [List.length_map]
            _ ≤ (wlChars.filter
                (fun x => x ≠ p.from_word.getD i ' ')).length :=
              List.length_filter_le _ _
            _ ≤ 25 := key i hi
      _ = 25 * p.from_word.length := hconst _

/-- Witness for wl_candidate_bound at the lowercase word "ab" with the
dictionary containing only "cb". -/
theorem wl_candidate_bound_witness :
    (WordLadderPuzzle.mk [Char.ofNat 97, Char.ofNat 98]
        [Char.ofNat 99, Char.ofNat 100]
        {[Char.ofNat 99, Char.ofNat 98]}).candidatesTested ≤ 25 * 2 ∧
    (WordLadderPuzzle.mk [Char.ofNat 97, Char.ofNat 98]
        [Char.ofNat 99, Char.ofNat 100]
        {[Char.ofNat 99, Char.ofNat 98]}).extensions.length ≤ 25 * 2 :=
  wl_candidate_bound _ (by decide)

/- ------------------------------------------------------------------ -/
/- MN sliding-tile puzzle (mn_puzzle.py).                              -/
/- ------------------------------------------------------------------ -/

/-- A sliding-tile grid: rows of string symbols; the blank is "*". -/
abbrev GridS := List (List String)

/-- Read cell (i, j) of a symbol grid. -/
def cellS (g : GridS) (i j : Nat) : String :=
  (g.getD i []).getD j ""

/-- Write cell (i, j) of a symbol grid. -/
def setCellS (g : GridS) (i j : Nat) (v : String) : GridS :=
  g.set i ((g.getD i []).set j v)

/-- `MNPuzzle` of mn_puzzle.py: `from_grid` (current) and `to_grid`
(goal).  The derived fields `self.n` and `self.m` of __init__ line 26 are
the row count and the first row's length of from_grid, defined below. -/
structure MNPuzzle where
  from_grid : GridS
  to_grid : GridS
deriving DecidableEq

/-- `self.n = len(from_grid)` (mn_puzzle.py line 26). -/
def MNPuzzle.n (p : MNPuzzle) : Nat := p.from_grid.length

/-- `self.m = len(from_grid[0])` (mn_puzzle.py line 26). -/
def MNPuzzle.m (p : MNPuzzle) : Nat := (p.from_grid.headD []).length

/-- `MNPuzzle.__init__` (mn_puzzle.py lines 11-27) with its three assert
statements: `len(from_grid) > 0`, every row of from_grid as long as
from_grid[0], every row of to_grid as long as to_grid[0] (the last
comprehension never evaluates to_grid[0] when to_grid is empty, so an
empty to_grid passes).  A failed assert aborts construction: none. -/
def MNPuzzle.init (from_grid to_grid : GridS) : Option MNPuzzle :=
  if from_grid.length > 0 then
    if from_grid.all (fun r => r.length == (from_grid.headD []).length) then
      if to_grid.all (fun r => r.length == (to_grid.headD []).length) then
        some ⟨from_grid, to_grid⟩
      else none
    else none
  else none

/-- `index_of_space` (mn_puzzle.py lines 77-93): scan row-major, return
the first cell holding "*"; Python returns None when there is none. -/
def MNPuzzle.index_of_space (p : MNPuzzle) : Option (Nat × Nat) :=
  (List.range p.n).findSome? (fun i =>
    ((List.range p.m).find? (fun j => cellS p.from_grid i j == "*")).map
      (fun j => (i, j)))

/-- `convert_tuple` (lines 95-109): deep copy of from_grid as lists; in
this value embedding a copy is the value itself. -/
def MNPuzzle.convert_tuple (p : MNPuzzle) : GridS := p.from_grid

/-- `convert_list` (lines 111-126): deep copy of a list grid as tuples. -/
def MNPuzzle.convert_list (_p : MNPuzzle) (puzzle_list : GridS) : GridS :=
  puzzle_list

/-- `row_configs` (mn_puzzle.py lines 128-159): right swap then left swap
of the blank.  Subscripting Python's None (no blank) is an error: none. -/
def MNPuzzle.row_configs (p : MNPuzzle) : Option (List MNPuzzle) :=
  p.index_of_space.map (fun e =>
    (if e.2 + 1 < p.m then
      [MNPuzzle.mk (p.convert_list (setCellS
          (setCellS p.convert_tuple e.1 e.2 (cellS p.convert_tuple e.1 (e.2 + 1)))
          e.1 (e.2 + 1) "*")) p.to_grid]
    else []) ++
    (if 1 ≤ e.2 then
      [MNPuzzle.mk (p.convert_list (setCellS
          (setCellS p.convert_tuple e.1 e.2 (cellS p.convert_tuple e.1 (e.2 - 1)))
          e.1 (e.2 - 1) "*")) p.to_grid]
    else []))

/-- `col_configs` (mn_puzzle.py lines 161-192): down swap then up swap. -/
def MNPuzzle.col_configs (p : MNPuzzle) : Option (List MNPuzzle) :=
  p.index_of_space.map (fun e =>
    (if e.1 + 1 < p.n then
      [MNPuzzle.mk (p.convert_list (setCellS
          (setCellS p.convert_tuple e.1 e.2 (cellS p.convert_tuple (e.1 + 1) e.2))
          (e.1 + 1) e.2 "*")) p.to_grid]
    else []) ++
    (if 1 ≤ e.1 then
      [MNPuzzle.mk (p.convert_list (setCellS
          (setCellS p.convert_tuple e.1 e.2 (cellS p.convert_tuple (e.1 - 1) e.2))
          (e.1 - 1) e.2 "*")) p.to_grid]
    else []))

/-- `extensions` (mn_puzzle.py lines 194-208): row swaps then column
swaps. -/
def MNPuzzle.extensions (p : MNPuzzle) : Option (List MNPuzzle) :=
  match p.row_configs, p.col_configs with
  | some r, some c => some (r ++ c)
  | _, _ => none

/-- `is_solved` (mn_puzzle.py lines 210-229). -/
def MNPuzzle.is_solved (p : MNPuzzle) : Bool :=
  p.from_grid == p.to_grid

/-- The from_grid is rectangular and nonempty, as __init__ asserts. -/
def ValidMN (p : MNPuzzle) : Prop :=
  p.from_grid ≠ [] ∧
  (∀ r ∈ p.from_grid, r.length = (p.from_grid.headD []).length)

instance (p : MNPuzzle) : Decidable (ValidMN p) := by
  unfold ValidMN; exact inferInstance

/-- Exactly one cell of from_grid holds the blank sentinel "*". -/
def OneBlank (p : MNPuzzle) : Prop :=
  (p.from_grid.flatten.filter (fun s => s = "*")).length = 1

instance (p : MNPuzzle) : Decidable (OneBlank p) := by
  unfold OneBlank; exact inferInstance

/-- Counterexample to claim C6 as stated: the empty current grid is
rejected by the first assert of MNPuzzle.__init__, so construction does
not always succeed. -/
theorem mn_init_cex : MNPuzzle.init [] [] = none := rfl

/-- Claim C6 amended: sliding-tile construction succeeds exactly when the
current grid is nonempty, every row of the current grid is as long as its
first row, and every row of the goal grid is as long as the goal's first
row; mismatched shapes between current and goal, an empty goal grid, and a
missing blank are not rejected. -/
theorem mn_init_spec (from_grid to_grid : GridS) :
    (MNPuzzle.init from_grid to_grid).isSome ↔
      (from_grid ≠ [] ∧
       (∀ r ∈ from_grid, r.length = (from_grid.headD []).length) ∧
       (∀ r ∈ to_grid, r.length = (to_grid.headD []).length)) := by
  constructor
  · intro hs
    unfold MNPuzzle.init at hs
    split_ifs at hs with h1 h2 h3
    · refine ⟨?_, ?_, ?_⟩
      · intro hnil
        rw [hnil] at h1
        simp at h1
      · intro r hr
        have := List.all_eq_true.mp h2 r hr
        simpa using this
      · intro r hr
        have := List.all_eq_true.mp h3 r hr
        simpa using this
    all_goals simp at hs
  · rintro ⟨h1, h2, h3⟩
    unfold MNPuzzle.init
    rw [if_pos (List.length_pos.mpr h1),
      if_pos (List.all_eq_true.mpr (fun r hr => by simpa using h2 r hr)),
      if_pos (List.all_eq_true.mpr (fun r hr => by simpa using h3 r hr))]
    rfl

theorem length_setCellS (g : GridS) (a b : Nat) (v : String) :
    (setCellS g a b v).length = g.length := by
  unfold setCellS; exact List.length_set _ _ _

theorem rowLen_setCellS (g : GridS) (a b r : Nat) (v : String) :
    ((setCellS g a b v).getD r []).length = (g.getD r []).length := by
  unfold setCellS
  rw [getD_set_list]
  split_ifs with h
  · rw [List.length_set, h.1]
  · rfl

theorem cellS_setCellS (g : GridS) (a b r c : Nat) (v : String) :
    cellS (setCellS g a b v) r c =
      if a = r ∧ b = c ∧ a < g.length ∧ b < (g.getD a []).length then v
      else cellS g r c := by
  unfold cellS setCellS
  rw [getD_set_list]
  by_cases h1 : a = r ∧ a < g.length
  · rw [if_pos h1, getD_set_list]
    obtain ⟨har, halen⟩ := h1
    subst har
    by_cases h2 : b = c ∧ b < (g.getD a []).length
    · rw [if_pos h2, if_pos ⟨rfl, h2.1, halen, h2.2⟩]
    · rw [if_neg h2, if_neg (fun hcon => h2 ⟨hcon.2.1, hcon.2.2.2⟩)]
  · rw [if_neg h1, if_neg (fun hcon => h1 ⟨hcon.1, hcon.2.2.1⟩)]

theorem rowlen_of_rect_mn (g : GridS)
    (hrect : ∀ r ∈ g, r.length = (g.headD []).length) (a : Nat)
    (ha : a < g.length) : (g.getD a []).length = (g.headD []).length := by
  apply hrect
  rw [List.getD_eq_getElem _ _ ha]
  exact List.getElem_mem ha

/-- With at least one blank and a rectangular grid, index_of_space finds
an in-bounds blank cell. -/
theorem index_of_space_spec (p : MNPuzzle) (hv : ValidMN p)
    (hb : OneBlank p) :
    ∃ i j, p.index_of_space = some (i, j) ∧ i < p.n ∧ j < p.m ∧
      cellS p.from_grid i j = "*" := by
  obtain ⟨-, hrect⟩ := hv
  have hex : ∃ i j, i < p.n ∧ j < p.m ∧ cellS p.from_grid i j = "*" := by
    have hpos : 0 < (p.from_grid.flatten.filter (fun s => s = "*")).length := by
      unfold OneBlank at hb
      omega
    obtain ⟨x, hx⟩ := List.exists_mem_of_length_pos hpos
    have hx2 := List.mem_filter.mp hx
    obtain ⟨row, hrow, hxrow⟩ := List.mem_flatten.mp hx2.1
    have hxblank : x = "*" := by simpa using hx2.2
    obtain ⟨i, hi, hrowi⟩ := List.mem_iff_getElem.mp hrow
    obtain ⟨j, hj, hcell⟩ := List.mem_iff_getElem.mp hxrow
    refine ⟨i, j, hi, ?_, ?_⟩
    · have : row.length = p.m := by
        have := hrect row hrow
        exact this
      omega
    · unfold cellS
      rw [List.getD_eq_getElem _ _ hi, hrowi, List.getD_eq_getElem _ _ hj,
        hcell, hxblank]
  rcases hidx : p.index_of_space with - | e
  · exfalso
    unfold MNPuzzle.index_of_space at hidx
    rw [List.findSome?_eq_none_iff] at hidx
    obtain ⟨i, j, hi, hj, hcell⟩ := hex
    have hinner := hidx i (List.mem_range.mpr hi)
    rcases hfind : (List.range p.m).find?
        (fun j => cellS p.from_grid i j == "*") with - | j2
    · rw [List.find?_eq_none] at hfind
      exact hfind j (List.mem_range.mpr hj) (by simpa using hcell)
    · rw [hfind] at hinner
      exact Option.noConfusion hinner
  · obtain ⟨i, j⟩ := e
    unfold MNPuzzle.index_of_space at hidx
    obtain ⟨a, ha, hfa⟩ := List.exists_of_findSome?_eq_some hidx
    rcases hfind : (List.range p.m).find?
        (fun j => cellS p.from_grid a j == "*") with - | j2
    · rw [hfind] at hfa
      exact absurd hfa (by simp)
    · rw [hfind] at hfa
      have hfa2 : (some (a, j2) : Option (Nat × Nat)) = some (i, j) := hfa
      have hpair : (a, j2) = (i, j) := Option.some.inj hfa2
      have hai : a = i := congrArg Prod.fst hpair
      have haj : j2 = j := congrArg Prod.snd hpair
      subst hai
      subst haj
      refine ⟨a, j2, rfl, List.mem_range.mp ha, ?_, ?_⟩
      · exact List.mem_range.mp (List.mem_of_find?_eq_some hfind)
      · have := List.find?_some hfind
        simpa using this

/-- The two-cell exchange each MNPuzzle move performs: the blank cell
(ai, aj) receives the neighbor's symbol and the neighbor cell (bi, bj)
receives "*", exactly the two assignments of row_configs / col_configs. -/
def mnSwap (g : GridS) (ai aj bi bj : Nat) : GridS :=
  setCellS (setCellS g ai aj (cellS g bi bj)) bi bj "*"

/-- extensions() emits the right, left, down, up swaps of the found blank,
in that order, each guarded by its bound test. -/
theorem mn_extensions_structure (p : MNPuzzle) (i j : Nat)
    (hidx : p.index_of_space = some (i, j)) :
    p.extensions = some (
      ((if j + 1 < p.m then
          [MNPuzzle.mk (mnSwap p.from_grid i j i (j + 1)) p.to_grid]
        else []) ++
       (if 1 ≤ j then
          [MNPuzzle.mk (mnSwap p.from_grid i j i (j - 1)) p.to_grid]
        else [])) ++
      ((if i + 1 < p.n then
          [MNPuzzle.mk (mnSwap p.from_grid i j (i + 1) j) p.to_grid]
        else []) ++
       (if 1 ≤ i then
          [MNPuzzle.mk (mnSwap p.from_grid i j (i - 1) j) p.to_grid]
        else []))) := by
  unfold MNPuzzle.extensions MNPuzzle.row_configs MNPuzzle.col_configs
  rw [hidx]
  rfl

/-- Claim C3's description of one slide move: blank and neighbor exchange
symbols, shape and all other cells unchanged. -/
def ExchangedAt (g g2 : GridS) (ai aj bi bj : Nat) : Prop :=
  g2.length = g.length ∧
  (∀ r, (g2.getD r []).length = (g.getD r []).length) ∧
  cellS g2 ai aj = cellS g bi bj ∧
  cellS g2 bi bj = cellS g ai aj ∧
  ∀ r c, r < g.length → c < (g.getD r []).length →
    ¬(r = ai ∧ c = aj) → ¬(r = bi ∧ c = bj) → cellS g2 r c = cellS g r c

theorem mnSwap_exchanged (g : GridS)
    (hrect : ∀ r ∈ g, r.length = (g.headD []).length)
    (ai aj bi bj : Nat) (hai : ai < g.length)
    (haj : aj < (g.headD []).length) (hbi : bi < g.length)
    (hbj : bj < (g.headD []).length) (hne : ¬(ai = bi ∧ aj = bj))
    (hblank : cellS g ai aj = "*") :
    ExchangedAt g (mnSwap g ai aj bi bj) ai aj bi bj := by
  have hrla : (g.getD ai []).length = (g.headD []).length :=
    rowlen_of_rect_mn g hrect ai hai
  have hrlb : (g.getD bi []).length = (g.headD []).length :=
    rowlen_of_rect_mn g hrect bi hbi
  refine ⟨?_, ?_, ?_, ?_, ?_⟩
  · unfold mnSwap
    rw [length_setCellS, length_setCellS]
  · intro r
    unfold mnSwap
    rw [rowLen_setCellS, rowLen_setCellS]
  · unfold mnSwap
    rw [cellS_setCellS, length_setCellS, rowLen_setCellS,
      if_neg (fun hcon => hne ⟨hcon.1.symm, hcon.2.1.symm⟩),
      cellS_setCellS, if_pos ⟨rfl, rfl, hai, by omega⟩]
  · unfold mnSwap
    rw [cellS_setCellS, length_setCellS, rowLen_setCellS,
      if_pos ⟨rfl, rfl, hbi, by omega⟩, hblank]
  · intro r c hr hc hna hnb
    unfold mnSwap
    rw [cellS_setCellS, length_setCellS, rowLen_setCellS,
      if_neg (fun hcon => hnb ⟨hcon.1.symm, hcon.2.1.symm⟩),
      cellS_setCellS, if_neg (fun hcon => hna ⟨hcon.1.symm, hcon.2.1.symm⟩)]

/-- Claim C3: with exactly one blank, extensions() returns one new
configuration per in-bounds orthogonal neighbor of the blank, attempted in
the order right, left, down, up; each returned configuration is the current
grid with the blank and that neighbor exchanged and all other cells
unchanged, and each carries the goal grid unchanged. -/
theorem mn_extensions_exact (p : MNPuzzle) (hv : ValidMN p)
    (hb : OneBlank p) :
    ∃ i j, p.index_of_space = some (i, j) ∧ i < p.n ∧ j < p.m ∧
      cellS p.from_grid i j = "*" ∧
      p.extensions = some (
        ((if j + 1 < p.m then
            [MNPuzzle.mk (mnSwap p.from_grid i j i (j + 1)) p.to_grid]
          else []) ++
         (if 1 ≤ j then
            [MNPuzzle.mk (mnSwap p.from_grid i j i (j - 1)) p.to_grid]
          else [])) ++
        ((if i + 1 < p.n then
            [MNPuzzle.mk (mnSwap p.from_grid i j (i + 1) j) p.to_grid]
          else []) ++
         (if 1 ≤ i then
            [MNPuzzle.mk (mnSwap p.from_grid i j (i - 1) j) p.to_grid]
          else []))) ∧
      (j + 1 < p.m → ExchangedAt p.from_grid
        (mnSwap p.from_grid i j i (j + 1)) i j i (j + 1)) ∧
      (1 ≤ j → ExchangedAt p.from_grid
        (mnSwap p.from_grid i j i (j - 1)) i j i (j - 1)) ∧
      (i + 1 < p.n → ExchangedAt p.from_grid
        (mnSwap p.from_grid i j (i + 1) j) i j (i + 1) j) ∧
      (1 ≤ i → ExchangedAt p.from_grid
        (mnSwap p.from_grid i j (i - 1) j) i j (i - 1) j) := by
  obtain ⟨i, j, hidx, hi, hj, hcell⟩ := index_of_space_spec p hv hb
  have hjm : j < (p.from_grid.headD []).length := hj
  have hin : i < p.from_grid.length := hi
  refine ⟨i, j, hidx, hi, hj, hcell, mn_extensions_structure p i j hidx,
    fun h => ?_, fun h => ?_, fun h => ?_, fun h => ?_⟩
  · exact mnSwap_exchanged p.from_grid hv.2 i j i (j + 1) hin hjm hin
      (show j + 1 < (p.from_grid.headD []).length from h)
      (by omega) hcell
  · exact mnSwap_exchanged p.from_grid hv.2 i j i (j - 1) hin hjm hin
      (by omega) (by omega) hcell
  · exact mnSwap_exchanged p.from_grid hv.2 i j (i + 1) j hin hjm
      (show i + 1 < p.from_grid.length from h) hjm
      (by omega) hcell
  · exact mnSwap_exchanged p.from_grid hv.2 i j (i - 1) j hin hjm
      (by omega) hjm (by omega) hcell

/-- Witness for mn_extensions_exact at the 2x2 grid with blank at (0,0). -/
theorem mn_extensions_exact_witness :
    ∃ i j, (MNPuzzle.mk [["*", "1"], ["2", "3"]]
        [["1", "2"], ["3", "*"]]).index_of_space = some (i, j) ∧
      i < (MNPuzzle.mk [["*", "1"], ["2", "3"]]
        [["1", "2"], ["3", "*"]]).n ∧
      j < (MNPuzzle.mk [["*", "1"], ["2", "3"]]
        [["1", "2"], ["3", "*"]]).m ∧
      cellS [["*", "1"], ["2", "3"]] i j = "*" ∧
      (MNPuzzle.mk [["*", "1"], ["2", "3"]]
        [["1", "2"], ["3", "*"]]).extensions = some (
        ((if j + 1 < 2 then
            [MNPuzzle.mk (mnSwap [["*", "1"], ["2", "3"]] i j i (j + 1))
              [["1", "2"], ["3", "*"]]] else []) ++
         (if 1 ≤ j then
            [MNPuzzle.mk (mnSwap [["*", "1"], ["2", "3"]] i j i (j - 1))
              [["1", "2"], ["3", "*"]]] else [])) ++
        ((if i + 1 < 2 then
            [MNPuzzle.mk (mnSwap [["*", "1"], ["2", "3"]] i j (i + 1) j)
              [["1", "2"], ["3", "*"]]] else []) ++
         (if 1 ≤ i then
            [MNPuzzle.mk (mnSwap [["*", "1"], ["2", "3"]] i j (i - 1) j)
              [["1", "2"], ["3", "*"]]] else []))) := by
  obtain ⟨i, j, h1, h2, h3, h4, h5, -⟩ := mn_extensions_exact
    (MNPuzzle.mk [["*", "1"], ["2", "3"]] [["1", "2"], ["3", "*"]])
    (by decide) (by decide)
  exact ⟨i, j, h1, h2, h3, h4, h5⟩

/-- A corner position of an n x m grid: both coordinates extremal. -/
def IsCornerPos (n m i j : Nat) : Prop :=
  (i = 0 ∨ i = n - 1) ∧ (j = 0 ∨ j = m - 1)

instance (n m i j : Nat) : Decidable (IsCornerPos n m i j) := by
  unfold IsCornerPos; exact inferInstance

/-- A boundary position of an n x m grid: some coordinate extremal. -/
def IsEdgePos (n m i j : Nat) : Prop :=
  i = 0 ∨ i = n - 1 ∨ j = 0 ∨ j = m - 1

instance (n m i j : Nat) : Decidable (IsEdgePos n m i j) := by
  unfold IsEdgePos; exact inferInstance

/-- Counterexample to claim C5 as stated: the 1x2 grid with the single
blank at (0, 0) — a corner — has exactly one successor, not two. -/
theorem mn_corner_cex :
    ValidMN (MNPuzzle.mk [["*", "1"]] [["1", "*"]]) ∧
    OneBlank (MNPuzzle.mk [["*", "1"]] [["1", "*"]]) ∧
    (MNPuzzle.mk [["*", "1"]] [["1", "*"]]).index_of_space = some (0, 0) ∧
    IsCornerPos (MNPuzzle.mk [["*", "1"]] [["1", "*"]]).n
      (MNPuzzle.mk [["*", "1"]] [["1", "*"]]).m 0 0 ∧
    (MNPuzzle.mk [["*", "1"]] [["1", "*"]]).extensions.map List.length
      = some 1 ∧
    ¬ ((MNPuzzle.mk [["*", "1"]] [["1", "*"]]).extensions.map List.length
      = some 2) := by
  decide

/-- Claim C5 amended: for a sliding-tile configuration with exactly one
blank and at least two rows and two columns, the number of successors is
exactly 2 when the blank is at a corner, exactly 3 when it is on an edge
but not a corner, and exactly 4 when it is interior. -/
theorem mn_corner_amended (p : MNPuzzle) (hv : ValidMN p) (hb : OneBlank p)
    (hn : 2 ≤ p.n) (hm : 2 ≤ p.m) :
    ∃ i j L, p.index_of_space = some (i, j) ∧ i < p.n ∧ j < p.m ∧
      cellS p.from_grid i j = "*" ∧ p.extensions = some L ∧
      (IsCornerPos p.n p.m i j → L.length = 2) ∧
      (IsEdgePos p.n p.m i j ∧ ¬ IsCornerPos p.n p.m i j → L.length = 3) ∧
      (¬ IsEdgePos p.n p.m i j → L.length = 4) := by
  obtain ⟨i, j, hidx, hi, hj, hcell⟩ := index_of_space_spec p hv hb
  refine ⟨i, j, _, hidx, hi, hj, hcell, mn_extensions_structure p i j hidx,
    ?_, ?_, ?_⟩ <;>
  · intro h
    simp only [IsCornerPos, IsEdgePos] at h
    simp only [List.length_append]
    split_ifs <;> simp <;> omega

/-- Witness for mn_corner_amended at a 2x2 grid (blank at corner (0,0)). -/
theorem mn_corner_amended_witness :
    ∃ i j L, (MNPuzzle.mk [["*", "1"], ["2", "3"]]
        [["1", "2"], ["3", "*"]]).index_of_space = some (i, j) ∧
      i < (MNPuzzle.mk [["*", "1"], ["2", "3"]]
        [["1", "2"], ["3", "*"]]).n ∧
      j < (MNPuzzle.mk [["*", "1"], ["2", "3"]]
        [["1", "2"], ["3", "*"]]).m ∧
      cellS [["*", "1"], ["2", "3"]] i j = "*" ∧
      (MNPuzzle.mk [["*", "1"], ["2", "3"]]
        [["1", "2"], ["3", "*"]]).extensions = some L ∧
      (IsCornerPos 2 2 i j → L.length = 2) ∧
      (IsEdgePos 2 2 i j ∧ ¬ IsCornerPos 2 2 i j → L.length = 3) ∧
      (¬ IsEdgePos 2 2 i j → L.length = 4) :=
  mn_corner_amended
    (MNPuzzle.mk [["*", "1"], ["2", "3"]] [["1", "2"], ["3", "*"]])
    (by decide) (by decide) (by decide) (by decide)

theorem count_set_elem {α : Type} [DecidableEq α] (l : List α) (v d a : α) :
    ∀ j, j < l.length →
      (l.set j v).count a + (if l.getD j d = a then 1 else 0)
        = l.count a + (if v = a then 1 else 0) := by
  induction l with
  | nil => intro j hj; simp at hj
  | cons x t ih =>
    intro j hj
    cases j with
    | zero =>
      rw [List.set_cons_zero, List.getD_cons_zero, List.count_cons,
        List.count_cons]
      by_cases hva : v = a <;> by_cases hxa : x = a <;>
        simp [hva, hxa, Nat.add_comm]
    | succ n =>
      rw [List.set_cons_succ, List.getD_cons_succ, List.count_cons,
        List.count_cons]
      have hstep := ih n (by simpa using hj)
      omega

theorem count_flatten_set {α : Type} [DecidableEq α] (g : List (List α))
    (r2 : List α) (a : α) :
    ∀ i, i < g.length →
      ((g.set i r2).flatten.count a) + (g.getD i []).count a
        = g.flatten.count a + r2.count a := by
  induction g with
  | nil => intro i hi; simp at hi
  | cons x t ih =>
    intro i hi
    cases i with
    | zero =>
      rw [List.set_cons_zero, List.getD_cons_zero, List.flatten_cons,
        List.flatten_cons, List.count_append, List.count_append]
      omega
    | succ n =>
      rw [List.set_cons_succ, List.getD_cons_succ, List.flatten_cons,
        List.flatten_cons, List.count_append, List.count_append]
      have hstep := ih n (by simpa using hi)
      omega

theorem count_setCellS (g : GridS) (a b : Nat) (v x : String)
    (ha : a < g.length) (hb : b < (g.getD a []).length) :
    (setCellS g a b v).flatten.count x + (if cellS g a b = x then 1 else 0)
      = g.flatten.count x + (if v = x then 1 else 0) := by
  unfold setCellS cellS
  have h1 := count_flatten_set g ((g.getD a []).set b v) x a ha
  have h2 := count_set_elem (g.getD a []) v "" x b hb
  by_cases hc : (g.getD a []).getD b "" = x <;> by_cases hv : v = x
  · rw [if_pos hc, if_pos hv] at h2 ⊢; omega
  · rw [if_pos hc, if_neg hv] at h2 ⊢; omega
  · rw [if_neg hc, if_pos hv] at h2 ⊢; omega
  · rw [if_neg hc, if_neg hv] at h2 ⊢; omega

theorem mnSwap_perm (g : GridS) (ai aj bi bj : Nat)
    (hai : ai < g.length) (haj : aj < (g.getD ai []).length)
    (hbi : bi < g.length) (hbj : bj < (g.getD bi []).length)
    (hne : ¬(ai = bi ∧ aj = bj)) (hblank : cellS g ai aj = "*") :
    (mnSwap g ai aj bi bj).flatten.Perm g.flatten := by
  rw [List.perm_iff_count]
  intro x
  have h1 := count_setCellS g ai aj (cellS g bi bj) x hai haj
  rw [hblank] at h1
  have hceq : cellS (setCellS g ai aj (cellS g bi bj)) bi bj
      = cellS g bi bj := by
    rw [cellS_setCellS, if_neg (fun hcon => hne ⟨hcon.1, hcon.2.1⟩)]
  have h2 := count_setCellS (setCellS g ai aj (cellS g bi bj)) bi bj "*" x
    (by rw [length_setCellS]; exact hbi)
    (by rw [rowLen_setCellS]; exact hbj)
  rw [hceq] at h2
  unfold mnSwap
  by_cases hvx : cellS g bi bj = x <;> by_cases hsx : "*" = x
  · rw [if_pos hvx, if_pos hsx] at h1 h2; omega
  · rw [if_pos hvx] at h2 h1
    rw [if_neg hsx] at h2 h1
    omega
  · rw [if_neg hvx] at h2 h1
    rw [if_pos hsx] at h2 h1
    omega
  · rw [if_neg hvx] at h2 h1
    rw [if_neg hsx] at h2 h1
    omega

theorem headD_eq_getD_zero {α : Type} (l : List α) (d : α) :
    l.headD d = l.getD 0 d := by
  cases l <;> rfl

/-- Claim C10: with exactly one blank, every successor produced by
extensions() has exactly one blank, the same dimensions n and m, and the
same multiset of symbols as the receiver's current grid (moves only
permute symbols). -/
theorem mn_extensions_invariant (p : MNPuzzle) (hv : ValidMN p)
    (hb : OneBlank p) :
    ∃ L, p.extensions = some L ∧ ∀ s ∈ L,
      OneBlank s ∧ s.n = p.n ∧ s.m = p.m ∧
      s.from_grid.flatten.Perm p.from_grid.flatten := by
  obtain ⟨i, j, hidx, hi, hj, hcell⟩ := index_of_space_spec p hv hb
  have hin : i < p.from_grid.length := hi
  have hjm : j < (p.from_grid.headD []).length := hj
  have hrla : (p.from_grid.getD i []).length = (p.from_grid.headD []).length :=
    rowlen_of_rect_mn p.from_grid hv.2 i hin
  refine ⟨_, mn_extensions_structure p i j hidx, ?_⟩
  intro s hs
  have hkey : ∃ bi bj, bi < p.from_grid.length ∧
      bj < (p.from_grid.getD bi []).length ∧ ¬(i = bi ∧ j = bj) ∧
      s = MNPuzzle.mk (mnSwap p.from_grid i j bi bj) p.to_grid := by
    rcases List.mem_append.mp hs with hs1 | hs2
    · rcases List.mem_append.mp hs1 with hsa | hsb
      · by_cases hcond : j + 1 < p.m
        · rw [if_pos hcond] at hsa
          have hc2 : j + 1 < (p.from_grid.headD []).length := hcond
          refine ⟨i, j + 1, hin, by omega, by omega,
            List.mem_singleton.mp hsa⟩
        · rw [if_neg hcond] at hsa
          exact absurd hsa (List.not_mem_nil s)
      · by_cases hcond : 1 ≤ j
        · rw [if_pos hcond] at hsb
          refine ⟨i, j - 1, hin, by omega, by omega,
            List.mem_singleton.mp hsb⟩
        · rw [if_neg hcond] at hsb
          exact absurd hsb (List.not_mem_nil s)
    · rcases List.mem_append.mp hs2 with hsa | hsb
      · by_cases hcond : i + 1 < p.n
        · rw [if_pos hcond] at hsa
          have hbi : i + 1 < p.from_grid.length := hcond
          have hrlb : (p.from_grid.getD (i + 1) []).length
              = (p.from_grid.headD []).length :=
            rowlen_of_rect_mn p.from_grid hv.2 (i + 1) hbi
          refine ⟨i + 1, j, hbi, by omega, by omega,
            List.mem_singleton.mp hsa⟩
        · rw [if_neg hcond] at hsa
          exact absurd hsa (List.not_mem_nil s)
      · by_cases hcond : 1 ≤ i
        · rw [if_pos hcond] at hsb
          have hbi : i - 1 < p.from_grid.length := by omega
          have hrlb : (p.from_grid.getD (i - 1) []).length
              = (p.from_grid.headD []).length :=
            rowlen_of_rect_mn p.from_grid hv.2 (i - 1) hbi
          refine ⟨i - 1, j, hbi, by omega, by omega,
            List.mem_singleton.mp hsb⟩
        · rw [if_neg hcond] at hsb
          exact absurd hsb (List.not_mem_nil s)
  obtain ⟨bi, bj, hbi, hbj, hne, rfl⟩ := hkey
  have hperm := mnSwap_perm p.from_grid i j bi bj hin (by omega) hbi hbj
    hne hcell
  refine ⟨?_, ?_, ?_, hperm⟩
  · unfold OneBlank at hb ⊢
    dsimp only
    rw [(hperm.filter (fun s => decide (s = "*"))).length_eq]
    exact hb
  · show (mnSwap p.from_grid i j bi bj).length = p.from_grid.length
    unfold mnSwap
    rw [length_setCellS, length_setCellS]
  · show ((mnSwap p.from_grid i j bi bj).headD []).length
      = (p.from_grid.headD []).length
    rw [headD_eq_getD_zero, headD_eq_getD_zero]
    unfold mnSwap
    rw [rowLen_setCellS, rowLen_setCellS]

/-- Witness for mn_extensions_invariant at the 2x2 grid with blank at
(0, 0). -/
theorem mn_extensions_invariant_witness :
    ∃ L, (MNPuzzle.mk [["*", "1"], ["2", "3"]]
        [["1", "2"], ["3", "*"]]).extensions = some L ∧ ∀ s ∈ L,
      OneBlank s ∧ s.n = (MNPuzzle.mk [["*", "1"], ["2", "3"]]
        [["1", "2"], ["3", "*"]]).n ∧
      s.m = (MNPuzzle.mk [["*", "1"], ["2", "3"]]
        [["1", "2"], ["3", "*"]]).m ∧
      s.from_grid.flatten.Perm
        (MNPuzzle.mk [["*", "1"], ["2", "3"]]
          [["1", "2"], ["3", "*"]]).from_grid.flatten :=
  mn_extensions_invariant
    (MNPuzzle.mk [["*", "1"], ["2", "3"]] [["1", "2"], ["3", "*"]])
    (by decide) (by decide)

/- ------------------------------------------------------------------ -/
/- Claim C8: extensions() never mutates its receiver.                  -/
/-                                                                     -/
/- Python mutability analysis: the only mutable object reachable from  -/
/- a GridPegSolitairePuzzle receiver whose contents extensions()       -/
/- handles is the list-of-lists `self._marker` (the marker set is      -/
/- shared but only read).  We model a heap of grids addressed by       -/
/- index; `copy.deepcopy` allocates a fresh address, and all writes of -/
/- row_configs / col_configs are replayed against the heap, so an      -/
/- aliasing bug (e.g. `new_marker = self._marker`) would falsify the   -/
/- frame theorem.  MNPuzzle stores `from_grid` as a tuple of tuples    -/
/- and WordLadderPuzzle stores immutable strings and a dictionary it   -/
/- only reads, and neither extensions() assigns any attribute, so for  -/
/- them the state-passing translation returns the receiver record      -/
/- unchanged by construction.                                          -/
/- ------------------------------------------------------------------ -/

/-- One jump of row_configs / col_configs against the heap:
`new_marker = copy.deepcopy(self._marker)` allocates address `h.length`
holding a copy of `g`, then the three cell writes hit that address:
`new[r1][c1] = "*"`, `new[r2][c2] = "."`, `new[r3][c3] = "."`. -/
def allocJump (h : List Grid) (g : Grid) (r1 c1 r2 c2 r3 c3 : Nat) :
    List Grid :=
  let h1 := h ++ [g]
  let a := h.length
  let h2 := h1.set a (setCell (h1.getD a []) r1 c1 Marker.peg)
  let h3 := h2.set a (setCell (h2.getD a []) r2 c2 Marker.empty)
  h3.set a (setCell (h3.getD a []) r3 c3 Marker.empty)

/-- row_configs replayed against the heap: every read of `self._marker`
goes through address `selfA` at the moment of the read, every new
configuration records the address of its freshly allocated grid. -/
def gpsRowConfigsH (h0 : List Grid) (selfA : Nat) (ms : Finset Marker)
    (cols rows : Nat) : List Grid × List (Nat × Finset Marker) :=
  (List.range cols).foldl (fun acc i =>
    (List.range rows).foldl (fun acc2 j =>
      if cellAt (acc2.1.getD selfA []) i j = Marker.empty then
        let acc3 :=
          if 2 ≤ j ∧ cellAt (acc2.1.getD selfA []) i (j - 2) = Marker.peg ∧
              cellAt (acc2.1.getD selfA []) i (j - 1) = Marker.peg then
            (allocJump acc2.1 (acc2.1.getD selfA []) i j i (j - 2) i (j - 1),
             acc2.2 ++ [(acc2.1.length, ms)])
          else acc2
        if j + 2 < rows ∧
            cellAt (acc3.1.getD selfA []) i (j + 2) = Marker.peg ∧
            cellAt (acc3.1.getD selfA []) i (j + 1) = Marker.peg then
          (allocJump acc3.1 (acc3.1.getD selfA []) i j i (j + 2) i (j + 1),
           acc3.2 ++ [(acc3.1.length, ms)])
        else acc3
      else acc2) acc) (h0, [])

/-- col_configs replayed against the heap. -/
def gpsColConfigsH (h0 : List Grid) (selfA : Nat) (ms : Finset Marker)
    (cols rows : Nat) : List Grid × List (Nat × Finset Marker) :=
  (List.range cols).foldl (fun acc i =>
    (List.range rows).foldl (fun acc2 j =>
      if cellAt (acc2.1.getD selfA []) i j = Marker.empty then
        let acc3 :=
          if 2 ≤ i ∧ cellAt (acc2.1.getD selfA []) (i - 2) j = Marker.peg ∧
              cellAt (acc2.1.getD selfA []) (i - 1) j = Marker.peg then
            (allocJump acc2.1 (acc2.1.getD selfA []) i j (i - 2) j (i - 1) j,
             acc2.2 ++ [(acc2.1.length, ms)])
          else acc2
        if i + 2 < cols ∧
            cellAt (acc3.1.getD selfA []) (i + 2) j = Marker.peg ∧
            cellAt (acc3.1.getD selfA []) (i + 1) j = Marker.peg then
          (allocJump acc3.1 (acc3.1.getD selfA []) i j (i + 1) j (i + 2) j,
           acc3.2 ++ [(acc3.1.length, ms)])
        else acc3
      else acc2) acc) (h0, [])

/-- extensions() replayed against the heap: `m`, `n` are read from the
receiver's grid, then the row pass runs, then the column pass on the
resulting heap. -/
def gpsExtensionsH (h0 : List Grid) (selfA : Nat) (ms : Finset Marker) :
    List Grid × List (Nat × Finset Marker) :=
  let g := h0.getD selfA []
  let res1 := gpsRowConfigsH h0 selfA ms g.length (g.headD []).length
  let res2 := gpsColConfigsH res1.1 selfA ms g.length (g.headD []).length
  (res2.1, res1.2 ++ res2.2)

/-- MNPuzzle.extensions as a receiver-state transformer: the source
assigns no attribute of self (its only writes hit the fresh lists built
by convert_tuple), so the state component is returned unchanged. -/
def MNPuzzle.extensionsSt (p : MNPuzzle) : MNPuzzle × Option (List MNPuzzle) :=
  (p, p.extensions)

/-- WordLadderPuzzle.extensions as a receiver-state transformer: strings
are immutable, the dictionary is only read, and no attribute of self is
assigned. -/
def WordLadderPuzzle.extensionsSt (p : WordLadderPuzzle) :
    WordLadderPuzzle × List WordLadderPuzzle :=
  (p, p.extensions)

theorem foldl_preserve {α β : Type} (P : β → Prop) (f : β → α → β)
    (hstep : ∀ b a, P b → P (f b a)) :
    ∀ (L : List α) (init : β), P init → P (L.foldl f init) := by
  intro L
  induction L with
  | nil => intro init h; exact h
  | cons x t ih =>
    intro init h
    rw [List.foldl_cons]
    exact ih _ (hstep init x h)

theorem allocJump_frame (h : List Grid) (g : Grid)
    (r1 c1 r2 c2 r3 c3 selfA : Nat) (hA : selfA < h.length) :
    selfA < (allocJump h g r1 c1 r2 c2 r3 c3).length ∧
    (allocJump h g r1 c1 r2 c2 r3 c3).getD selfA [] = h.getD selfA [] := by
  unfold allocJump
  constructor
  · simp only [List.length_set, List.length_append, List.length_singleton]
    omega
  · rw [getD_set_list, if_neg (fun hcon => absurd hcon.1 (by omega)),
      getD_set_list, if_neg (fun hcon => absurd hcon.1 (by omega)),
      getD_set_list, if_neg (fun hcon => absurd hcon.1 (by omega)),
      List.getD_append _ _ _ _ hA]

theorem gpsRowConfigsH_frame (h0 : List Grid) (selfA : Nat)
    (ms : Finset Marker) (cols rows : Nat) (hA : selfA < h0.length) :
    selfA < (gpsRowConfigsH h0 selfA ms cols rows).1.length ∧
    (gpsRowConfigsH h0 selfA ms cols rows).1.getD selfA []
      = h0.getD selfA [] := by
  unfold gpsRowConfigsH
  refine foldl_preserve
    (fun (acc : List Grid × List (Nat × Finset Marker)) =>
      selfA < acc.1.length ∧
      acc.1.getD selfA [] = h0.getD selfA []) _ ?_ _ _ ⟨hA, rfl⟩
  · intro b i hb
    refine foldl_preserve
      (fun (acc : List Grid × List (Nat × Finset Marker)) =>
        selfA < acc.1.length ∧
        acc.1.getD selfA [] = h0.getD selfA []) _ ?_ _ _ hb
    · intro b2 j hb2
      dsimp only
      split_ifs <;>
        first
          | exact hb2
          | exact ⟨(allocJump_frame _ _ _ _ _ _ _ _ _ hb2.1).1,
              (allocJump_frame _ _ _ _ _ _ _ _ _ hb2.1).2.trans hb2.2⟩
          | exact ⟨(allocJump_frame _ _ _ _ _ _ _ _ _
                (allocJump_frame _ _ _ _ _ _ _ _ _ hb2.1).1).1,
              ((allocJump_frame _ _ _ _ _ _ _ _ _
                (allocJump_frame _ _ _ _ _ _ _ _ _ hb2.1).1).2.trans
                ((allocJump_frame _ _ _ _ _ _ _ _ _ hb2.1).2.trans hb2.2))⟩

theorem gpsColConfigsH_frame (h0 : List Grid) (selfA : Nat)
    (ms : Finset Marker) (cols rows : Nat) (hA : selfA < h0.length) :
    selfA < (gpsColConfigsH h0 selfA ms cols rows).1.length ∧
    (gpsColConfigsH h0 selfA ms cols rows).1.getD selfA []
      = h0.getD selfA [] := by
  unfold gpsColConfigsH
  refine foldl_preserve
    (fun (acc : List Grid × List (Nat × Finset Marker)) =>
      selfA < acc.1.length ∧
      acc.1.getD selfA [] = h0.getD selfA []) _ ?_ _ _ ⟨hA, rfl⟩
  · intro b i hb
    refine foldl_preserve
      (fun (acc : List Grid × List (Nat × Finset Marker)) =>
        selfA < acc.1.length ∧
        acc.1.getD selfA [] = h0.getD selfA []) _ ?_ _ _ hb
    · intro b2 j hb2
      dsimp only
      split_ifs <;>
        first
          | exact hb2
          | exact ⟨(allocJump_frame _ _ _ _ _ _ _ _ _ hb2.1).1,
              (allocJump_frame _ _ _ _ _ _ _ _ _ hb2.1).2.trans hb2.2⟩
          | exact ⟨(allocJump_frame _ _ _ _ _ _ _ _ _
                (allocJump_frame _ _ _ _ _ _ _ _ _ hb2.1).1).1,
              ((allocJump_frame _ _ _ _ _ _ _ _ _
                (allocJump_frame _ _ _ _ _ _ _ _ _ hb2.1).1).2.trans
                ((allocJump_frame _ _ _ _ _ _ _ _ _ hb2.1).2.trans hb2.2))⟩

/-- Claim C8: extensions() never mutates its receiver.  For peg solitaire,
replaying extensions() against a heap of mutable grids leaves the grid at
the receiver's address unchanged (all writes hit the deep copies); the
sliding-tile and word-ladder extensions() assign no attribute and touch no
mutable object reachable from the receiver, so their state transformers
return the receiver unchanged. -/
theorem extensions_no_mutation :
    (∀ (h0 : List Grid) (selfA : Nat) (ms : Finset Marker),
      selfA < h0.length →
      (gpsExtensionsH h0 selfA ms).1.getD selfA [] = h0.getD selfA []) ∧
    (∀ p : MNPuzzle, p.extensionsSt.1 = p) ∧
    (∀ p : WordLadderPuzzle, p.extensionsSt.1 = p) := by
  refine ⟨fun h0 selfA ms hA => ?_, fun p => rfl, fun p => rfl⟩
  unfold gpsExtensionsH
  have h1 := gpsRowConfigsH_frame h0 selfA ms
    (h0.getD selfA []).length ((h0.getD selfA []).headD []).length hA
  have h2 := gpsColConfigsH_frame _ selfA ms
    (h0.getD selfA []).length ((h0.getD selfA []).headD []).length h1.1
  exact h2.2.trans h1.2

/-- Witness for extensions_no_mutation: the heap holding one 1x3 grid at
address 0 still holds it unchanged after the jump is generated. -/
theorem extensions_no_mutation_witness :
    (gpsExtensionsH [[[Marker.peg, Marker.peg, Marker.empty]]] 0
      {Marker.peg, Marker.empty}).1.getD 0 []
      = [[Marker.peg, Marker.peg, Marker.empty]] :=
  extensions_no_mutation.1 [[[Marker.peg, Marker.peg, Marker.empty]]] 0
    {Marker.peg, Marker.empty} (by decide)
